import Mathlib

/-!
A verification development for the treeline-money reconciliation and
balance-projection engine (Rust CLI, `cli-rs`).

Shallow embedding conventions:
* Strings are modelled as `List Char` (`Str`); Rust `String`/`&str` values
  (uuids rendered via `Display`, external id maps, descriptions) become `Str`.
* `rust_decimal::Decimal` amounts are modelled at the fixed 2-decimal
  precision the engine's formatting (`format!("{:.2}", _)`) uses: as a sign
  flag plus a magnitude in cents (`Dec2`) where the sign of zero matters
  (Decimal carries a sign flag even on zero), and as `Int` cents where only
  the numeric value matters (ledger arithmetic, balances).
* `chrono::NaiveDate` is modelled as an `Int` day number (days since
  1970-01-01); `NaiveDate::to_string` (`%Y-%m-%d`) is `formatDate` via the
  standard civil-from-days algorithm.  Instants (`DateTime<Utc>`) are `Int`
  seconds; midnight of day `d` is `d * 86400`.
* `HashMap<String, String>` becomes an association list with at-most-one
  entry per key maintained by `hmInsert`/`hmErase`; `collect()` over an
  iterator of pairs keeps last-wins lookup semantics (`lookupLast`).
* Rust `char::to_lowercase` / `is_alphanumeric` are modelled by their ASCII
  restrictions (`Char.toLower` / `Char.isAlphanum`); every description the
  claims exercise is ASCII.
* SHA-256 (the `sha2` crate) is transcribed from FIPS 180-4 over `Nat`
  bytes/words with explicit `% 2 ^ 32` wrap-around.
-/

set_option maxRecDepth 10000

namespace Treeline

abbrev Str := List Char

/-- First-match lookup in an association list (`HashMap::get` for maps with
at most one entry per key). -/
def hmLookup : List (Str × Str) → Str → Option Str
  | [], _ => none
  | e :: m, k => if e.1 = k then some e.2 else hmLookup m k

/-- `HashMap::remove`. -/
def hmErase : List (Str × Str) → Str → List (Str × Str)
  | [], _ => []
  | e :: m, k => if e.1 = k then hmErase m k else e :: hmErase m k

/-- `HashMap::insert` (replaces any previous entry for the key). -/
def hmInsert (m : List (Str × Str)) (k v : Str) : List (Str × Str) :=
  (k, v) :: hmErase m k

/-- Lookup with last-entry-wins semantics, matching `collect()` of an
iterator of pairs into a `HashMap` followed by `get`. -/
def lookupLast (m : List (Str × Str)) (k : Str) : Option Str :=
  ((m.filter (fun e => e.1 = k)).getLast?).map (·.2)

/-- Is `p` a prefix of `s`? (decidable-equality variant, for proofs). -/
def prefSub : Str → Str → Bool
  | [], _ => true
  | _ :: _, [] => false
  | a :: as, b :: bs => if a = b then prefSub as bs else false

/-- Does `s` contain `pat` as a contiguous substring? -/
def containsSub (pat : Str) : Str → Bool
  | [] => pat.isEmpty
  | c :: rest => prefSub pat (c :: rest) || containsSub pat rest

/-! ### Fixed two-decimal amounts -/

/-- A `rust_decimal::Decimal` amount restricted to two decimal places:
a sign flag and a magnitude in cents.  `⟨true, 0⟩` is Decimal's negative
zero (numerically equal to zero; the sign flag is still set). -/
structure Dec2 where
  neg : Bool
  cents : Nat
deriving DecidableEq, Repr

/-- Digits of `n` (decimal), as characters. -/
def natDigits (n : Nat) : Str := Nat.toDigits 10 n

/-- Two-digit zero-padded rendering. -/
def pad2 (n : Nat) : Str := if n < 10 then '0' :: natDigits n else natDigits n

/-- Four-digit zero-padded rendering (chrono `%Y` for years 0-9999). -/
def pad4 (n : Nat) : Str :=
  if n < 10 then '0' :: '0' :: '0' :: natDigits n
  else if n < 100 then '0' :: '0' :: natDigits n
  else if n < 1000 then '0' :: natDigits n
  else natDigits n

/-- `format!("{:.2}", d)` for a two-decimal `Decimal`. -/
def formatDec2 (d : Dec2) : Str :=
  (if d.neg then ['-'] else []) ++ natDigits (d.cents / 100) ++ '.' :: pad2 (d.cents % 100)

/-- View an exact cents amount as a `Decimal` (no negative zero arises). -/
def dec2OfCents (n : Int) : Dec2 := ⟨decide (n < 0), n.natAbs⟩

/-! ### Dates -/

/-- Civil date from a day number (days since 1970-01-01); the standard
days-from-civil inverse used by chrono.  Returns `(year, month, day)`. -/
def civilOfDays (days : Int) : Int × Nat × Nat :=
  let z := days + 719468
  let era := Int.fdiv z 146097
  let doe := (z - era * 146097).toNat
  let yoe := (doe - doe / 1460 + doe / 36524 - doe / 146096) / 365
  let y := (yoe : Int) + era * 400
  let doy := doe - (365 * yoe + yoe / 4 - yoe / 100)
  let mp := (5 * doy + 2) / 153
  let d := doy - (153 * mp + 2) / 5 + 1
  let m := if mp < 10 then mp + 3 else mp - 9
  (if m ≤ 2 then y + 1 else y, m, d)

/-- `NaiveDate::to_string` (`%Y-%m-%d`). -/
def formatDate (d : Int) : Str :=
  let c := civilOfDays d
  pad4 c.1.toNat ++ '-' :: pad2 c.2.1 ++ '-' :: pad2 c.2.2

/-! ### SHA-256 (FIPS 180-4), transcribed over `Nat` -/

/-- Truncation to a 32-bit word. -/
def w32 (n : Nat) : Nat := n % 4294967296

/-- Right rotation of a 32-bit word. -/
def rotr32 (n w : Nat) : Nat := w32 ((w >>> n) ||| (w <<< (32 - n)))

def bsig0 (w : Nat) : Nat := rotr32 2 w ^^^ rotr32 13 w ^^^ rotr32 22 w
def bsig1 (w : Nat) : Nat := rotr32 6 w ^^^ rotr32 11 w ^^^ rotr32 25 w
def ssig0 (w : Nat) : Nat := rotr32 7 w ^^^ rotr32 18 w ^^^ (w >>> 3)
def ssig1 (w : Nat) : Nat := rotr32 17 w ^^^ rotr32 19 w ^^^ (w >>> 10)
def chf (e f g : Nat) : Nat := (e &&& f) ^^^ ((4294967295 - w32 e) &&& g)
def majf (a b c : Nat) : Nat := (a &&& b) ^^^ (a &&& c) ^^^ (b &&& c)

/-- The SHA-256 round constants (FIPS 180-4 §4.2.2, written in decimal). -/
def shaK : List Nat :=
  [1116352408, 1899447441, 3049323471, 3921009573, 961987163,
   1508970993, 2453635748, 2870763221, 3624381080, 310598401,
   607225278, 1426881987, 1925078388, 2162078206, 2614888103,
   3248222580, 3835390401, 4022224774, 264347078, 604807628,
   770255983, 1249150122, 1555081692, 1996064986, 2554220882,
   2821834349, 2952996808, 3210313671, 3336571891, 3584528711,
   113926993, 338241895, 666307205, 773529912, 1294757372,
   1396182291, 1695183700, 1986661051, 2177026350, 2456956037,
   2730485921, 2820302411, 3259730800, 3345764771, 3516065817,
   3600352804, 4094571909, 275423344, 430227734, 506948616,
   659060556, 883997877, 958139571, 1322822218, 1537002063,
   1747873779, 1955562222, 2024104815, 2227730452, 2361852424,
   2428436474, 2756734187, 3204031479, 3329325298]

/-- Intermediate hash state (eight 32-bit words). -/
structure H8 where
  a : Nat
  b : Nat
  c : Nat
  d : Nat
  e : Nat
  f : Nat
  g : Nat
  h : Nat
deriving DecidableEq, Repr

def initH : H8 :=
  ⟨1779033703, 3144134277, 1013904242, 2773480762,
   1359893119, 2600822924, 528734635, 1541459225⟩

/-- One compression round. -/
def shaRound (st : H8) (k w : Nat) : H8 :=
  let t1 := w32 (st.h + bsig1 st.e + chf st.e st.f st.g + k + w)
  let t2 := w32 (bsig0 st.a + majf st.a st.b st.c)
  ⟨w32 (t1 + t2), st.a, st.b, st.c, w32 (st.d + t1), st.e, st.f, st.g⟩

/-- Extend the message schedule by one word; the list holds the schedule in
reverse (most recent word first). -/
def stepW (rws : List Nat) : List Nat :=
  w32 (ssig1 (rws.getD 1 0) + rws.getD 6 0 + ssig0 (rws.getD 14 0) + rws.getD 15 0) :: rws

def buildW (rws : List Nat) : Nat → List Nat
  | 0 => rws
  | n + 1 => buildW (stepW rws) n

/-- The 64-word message schedule of a 16-word block. -/
def schedule (block : List Nat) : List Nat := (buildW block.reverse 48).reverse

/-- Big-endian 32-bit words from bytes (the padded message length is a
multiple of four). -/
def toWords : List Nat → List Nat
  | b0 :: b1 :: b2 :: b3 :: rest =>
    (b0 * 16777216 + b1 * 65536 + b2 * 256 + b3) :: toWords rest
  | _ => []

/-- Split a word list into 16-word blocks (the padded message is a whole
number of 512-bit blocks). -/
def toBlocks : List Nat → List (List Nat)
  | w0 :: w1 :: w2 :: w3 :: w4 :: w5 :: w6 :: w7 ::
    w8 :: w9 :: w10 :: w11 :: w12 :: w13 :: w14 :: w15 :: rest =>
    [w0, w1, w2, w3, w4, w5, w6, w7, w8, w9, w10, w11, w12, w13, w14, w15] :: toBlocks rest
  | _ => []

/-- Big-endian bytes of a 32-bit word. -/
def wordBytes (w : Nat) : List Nat :=
  [(w >>> 24) &&& 255, (w >>> 16) &&& 255, (w >>> 8) &&& 255, w &&& 255]

/-- SHA-256 padding: `0x80`, zeros to 56 mod 64, then the 64-bit big-endian
bit length. -/
def shaPad (msg : List Nat) : List Nat :=
  let bitlen := 8 * msg.length
  let zeros := (119 - msg.length % 64) % 64
  msg ++ 0x80 :: List.replicate zeros 0 ++
    [(bitlen >>> 56) &&& 255, (bitlen >>> 48) &&& 255, (bitlen >>> 40) &&& 255,
     (bitlen >>> 32) &&& 255, (bitlen >>> 24) &&& 255, (bitlen >>> 16) &&& 255,
     (bitlen >>> 8) &&& 255, bitlen &&& 255]

/-- Compress one 16-word block into the running state. -/
def compressBlock (st : H8) (block : List Nat) : H8 :=
  let ws := schedule block
  let r := (shaK.zip ws).foldl (fun s kw => shaRound s kw.1 kw.2) st
  ⟨w32 (st.a + r.a), w32 (st.b + r.b), w32 (st.c + r.c), w32 (st.d + r.d),
   w32 (st.e + r.e), w32 (st.f + r.f), w32 (st.g + r.g), w32 (st.h + r.h)⟩

/-- SHA-256 digest (32 bytes) of a byte string. -/
def sha256 (msg : List Nat) : List Nat :=
  let blocks := toBlocks (toWords (shaPad msg))
  let fin := blocks.foldl compressBlock initH
  wordBytes fin.a ++ wordBytes fin.b ++ wordBytes fin.c ++ wordBytes fin.d ++
    wordBytes fin.e ++ wordBytes fin.f ++ wordBytes fin.g ++ wordBytes fin.h

/-- UTF-8 encoding of one character. -/
def utf8Char (c : Char) : List Nat :=
  let n := c.toNat
  if n < 128 then [n]
  else if n < 2048 then [192 ||| (n >>> 6), 128 ||| (n &&& 63)]
  else if n < 65536 then
    [224 ||| (n >>> 12), 128 ||| ((n >>> 6) &&& 63), 128 ||| (n &&& 63)]
  else
    [240 ||| (n >>> 18), 128 ||| ((n >>> 12) &&& 63),
     128 ||| ((n >>> 6) &&& 63), 128 ||| (n &&& 63)]

/-- UTF-8 encoding of a string (`str::as_bytes`). -/
def utf8Encode (s : Str) : List Nat := s.flatMap utf8Char

/-- The ten decimal digit characters. -/
def decDigits : Str := ['0', '1', '2', '3', '4', '5', '6', '7', '8', '9']

/-- Lowercase hex digits. -/
def hexChars : Str := decDigits ++ ['a', 'b', 'c', 'd', 'e', 'f']

/-- Two lowercase hex characters of one byte. -/
def byteHex (b : Nat) : Str := [hexChars.getD ((b >>> 4) &&& 15) '0', hexChars.getD (b &&& 15) '0']

/-- `hex::encode`. -/
def hexEncode (bs : List Nat) : Str := bs.flatMap byteHex

/-! ### Fingerprint identity (`src/domain.rs`) -/

/-- ASCII restriction of `str::to_lowercase`. -/
def asciiLower (s : Str) : Str := s.map Char.toLower

/-- `str::replace("null", "")`: delete each non-overlapping occurrence of
the substring `"null"`, scanning left to right and continuing after the
deleted match (no re-scanning of the spliced seam). -/
def removeNullSub : Str → Str
  | 'n' :: 'u' :: 'l' :: 'l' :: rest => removeNullSub rest
  | c :: cs => c :: removeNullSub cs
  | [] => []

/-- `normalize_description` (domain.rs): remove the substring `"null"`,
then retain only alphanumeric characters.  The caller has already
lower-cased the input. -/
def normalize_description (desc : Str) : Str :=
  (removeNullSub desc).filter Char.isAlphanum

/-- The string that is hashed: `"{account_id}|{date}|{amount}|{desc}"`
with the amount collapsed to canonical zero when numerically zero
(`if self.amount == Decimal::ZERO`). -/
def fingerprintInput (account_id : Str) (transaction_date : Int) (amount : Dec2)
    (description : Option Str) : Str :=
  let tx_date := formatDate transaction_date
  let amount' := if amount.cents = 0 then (⟨false, 0⟩ : Dec2) else amount
  let amount_normalized := formatDec2 amount'
  let desc := asciiLower (description.getD [])
  let desc_normalized := normalize_description desc
  account_id ++ '|' :: tx_date ++ '|' :: amount_normalized ++ '|' :: desc_normalized

/-- `Transaction::calculate_fingerprint` (domain.rs): lowercase hex of the
first 8 bytes of the SHA-256 digest of the fingerprint input string. -/
def calculate_fingerprint (account_id : Str) (transaction_date : Int) (amount : Dec2)
    (description : Option Str) : Str :=
  hexEncode ((sha256 (utf8Encode
    (fingerprintInput account_id transaction_date amount description))).take 8)

/-! ### Domain records (`src/domain.rs`), restricted to the fields the
reconciliation engine reads.  Timestamps, tags, soft-delete markers and
parent references are carried by the code but never consulted by the logic
under verification, so they are omitted. -/

structure Acct where
  id : Str
  name : Str
  nickname : Option Str
  account_type : Option Str
  currency : Str
  external_ids : List (Str × Str)
  balance : Option Int
  institution_name : Option Str
  institution_url : Option Str
  institution_domain : Option Str
deriving DecidableEq, Repr

structure Txn where
  id : Str
  account_id : Str
  external_ids : List (Str × Str)
  amount : Int
  description : Option Str
  transaction_date : Int
deriving DecidableEq, Repr

/-- A balance snapshot; the engine only ever consults the account, the
cent-exact balance and the calendar day of `snapshot_time`. -/
structure Snap where
  account_id : Str
  balance : Int
  date : Int
deriving DecidableEq, Repr

/-- The persistent store (DuckDB tables). -/
structure Store where
  accounts : List Acct
  transactions : List Txn
  snapshots : List Snap
deriving DecidableEq, Repr

def sfinKey : Str := "simplefin".toList
def fpKey : Str := "fingerprint".toList

/-- Fingerprint of a transaction record. -/
def txnFingerprint (t : Txn) : Str :=
  calculate_fingerprint t.account_id t.transaction_date (dec2OfCents t.amount) t.description

/-- `Transaction::ensure_fingerprint`: compute-and-store only when absent. -/
def ensure_fingerprint (t : Txn) : Txn :=
  if (hmLookup t.external_ids fpKey).isSome then t
  else { t with external_ids := hmInsert t.external_ids fpKey (txnFingerprint t) }

/-! ### Repository operations (`src/infra/duckdb_repo.rs`) -/

/-- The `ON CONFLICT (account_id) DO UPDATE` row merge of
`bulk_upsert_accounts`: name/currency/external_ids come from the incoming
row, nickname and account_type keep the stored value when present
(`COALESCE(sys_accounts.x, excluded.x)`), institution_name prefers the
incoming value (`COALESCE(excluded.x, sys_accounts.x)`); balance,
institution_url and institution_domain are not touched by the update. -/
def applyAccountUpdate (old new : Acct) : Acct :=
  { old with
    name := new.name
    nickname := old.nickname.orElse (fun _ => new.nickname)
    account_type := old.account_type.orElse (fun _ => new.account_type)
    currency := new.currency
    external_ids := new.external_ids
    institution_name := new.institution_name.orElse (fun _ => old.institution_name) }

/-- Insert path of `bulk_upsert_accounts`: the column list omits `balance`,
so a freshly inserted row has a NULL balance. -/
def insertAccountRow (a : Acct) : Acct := { a with balance := none }

def upsertAccount (rows : List Acct) (a : Acct) : List Acct :=
  if rows.any (fun r => r.id = a.id)
  then rows.map (fun r => if r.id = a.id then applyAccountUpdate r a else r)
  else rows ++ [insertAccountRow a]

/-- `bulk_upsert_accounts`. -/
def bulk_upsert_accounts (store : Store) (accounts : List Acct) : Store :=
  { store with accounts := accounts.foldl upsertAccount store.accounts }

/-- `bulk_upsert_transactions`: insert-or-replace keyed by the internal
transaction id (`ON CONFLICT (transaction_id) DO UPDATE SET ...` rewrites
every reconciliation-relevant column from the incoming row). -/
def upsertTxn (rows : List Txn) (t : Txn) : List Txn :=
  if rows.any (fun r => r.id = t.id)
  then rows.map (fun r => if r.id = t.id then t else r)
  else rows ++ [t]

def bulk_upsert_transactions (store : Store) (txns : List Txn) : Store :=
  { store with transactions := txns.foldl upsertTxn store.transactions }

/-- `external_ids::VARCHAR LIKE '%{v}%'`: the queried value occurs somewhere
in the JSON rendering of the map, modelled as a substring of some key or
value (matches that span a key/value boundary of the JSON text are not
modelled; the reconciler re-checks candidates by exact equality, so they
cannot change a skip/insert decision). -/
def extIdsLike (t : Txn) (v : Str) : Bool :=
  t.external_ids.any (fun e => containsSub v e.1 || containsSub v e.2)

/-- `get_transactions_by_external_ids`: for each single-entry query map,
collect the stored rows whose external-ids JSON contains the queried value. -/
def get_transactions_by_external_ids (store : Store) (queries : List Str) : List Txn :=
  queries.flatMap (fun v => store.transactions.filter (fun t => extIdsLike t v))

/-- `get_transaction_counts_by_fingerprint`: per queried fingerprint, the
number of stored transactions carrying it under `external_ids.fingerprint`. -/
def get_transaction_counts_by_fingerprint (store : Store) (fps : List Str) : List (Str × Nat) :=
  fps.map (fun fp => (fp, store.transactions.countP (fun t => hmLookup t.external_ids fpKey = some fp)))

/-! ### Services (`src/services/mod.rs`) -/

/-- `AccountService::add_balance_snapshot`: fails (mutating nothing) when
the account does not exist or a snapshot for the same day within 0.01
(one cent) already exists; otherwise records the snapshot. -/
def add_balance_snapshot (store : Store) (account_id : Str) (balance : Int) (date : Int) : Store :=
  if ¬ store.accounts.any (fun a => a.id = account_id) then store
  else if (store.snapshots.filter (fun s => s.account_id = account_id ∧ s.date = date)).any
      (fun s => (s.balance - balance).natAbs < 1) then store
  else { store with snapshots := store.snapshots ++ [⟨account_id, balance, date⟩] }

/-- The planned sync window. -/
structure SyncDateRange where
  start : Int
  stop : Int
  sync_type : String
deriving DecidableEq, Repr

/-- `SELECT MAX(transaction_date) FROM transactions` (dates are stored as
zero-padded `YYYY-MM-DD` strings, whose lexicographic maximum is the
chronological maximum). -/
def maxTxDate (txs : List Txn) : Option Int :=
  txs.foldl (fun acc t =>
    match acc with
    | none => some t.transaction_date
    | some m => some (max m t.transaction_date)) none

/-- `SyncService::calculate_sync_date_range`: `end = now`; with a stored
maximum transaction date `D`, start at midnight of `D` minus 7 days
(`"incremental"`); with no stored transaction, start 90 days before `now`
(`"initial"`). -/
def calculate_sync_date_range (now : Int) (txs : List Txn) : SyncDateRange :=
  match maxTxDate txs with
  | some m => ⟨m * 86400 - 7 * 86400, now, "incremental"⟩
  | none => ⟨now - 90 * 86400, now, "initial"⟩

/-- The account-matching scan of `sync_all_integrations`: the first stored
account whose `external_ids["simplefin"]` equals the discovered account's
(both ends must carry the key). -/
def findMatch (d : Acct) (existing : List Acct) : Option Acct :=
  existing.find? (fun e =>
    match hmLookup d.external_ids sfinKey, hmLookup e.external_ids sfinKey with
    | some dv, some ev => dv = ev
    | _, _ => false)

/-- The merge on a match: keep the stored internal id and `account_type`,
adopt everything else from the discovered account. -/
def mergeAccount (discovered stored : Acct) : Acct :=
  { discovered with id := stored.id, account_type := stored.account_type }

/-- The account-mapping loop (services/mod.rs lines 180-202): returns
`(updated_accounts, new_accounts)` in discovery order. -/
def mapAccounts (existing : List Acct) : List Acct → List Acct × List Acct
  | [] => ([], [])
  | d :: rest =>
    let r := mapAccounts existing rest
    match findMatch d existing with
    | some e => (mergeAccount d e :: r.1, r.2)
    | none => (d :: r.1, d :: r.2)

/-- Per-source transaction statistics reported by a sync. -/
structure TxStats where
  discovered : Nat
  new : Nat
  skipped : Nat
deriving DecidableEq, Repr

/-- A provider transaction: both in-repo providers (`demo_provider.rs` and
`simplefin.rs`) build every transaction with `external_ids` holding exactly
the `"simplefin"` source-native id, a freshly generated internal id, and a
placeholder account id. -/
structure PTxn where
  id : Str
  sfId : Str
  amount : Int
  description : Option Str
  transaction_date : Int
deriving DecidableEq, Repr

/-- The provider-built record; the empty string models the `Uuid::nil()`
account placeholder that the reconciler overwrites. -/
def ptxnToTxn (p : PTxn) : Txn :=
  ⟨p.id, [], [(sfinKey, p.sfId)], p.amount, p.description, p.transaction_date⟩

/-- One configured integration: the fixed remote dataset its provider
reports (accounts, and `(source_account_id, transaction)` pairs).  The demo
provider ignores the requested window and SimpleFIN's windowing happens
server-side, so a fixed dataset models a fixed remote state. -/
structure ProviderData where
  accounts : List Acct
  transactions : List (Str × PTxn)
deriving DecidableEq, Repr

/-- Rewriting one pulled transaction: set the resolved internal account id,
discard any previously computed fingerprint, and recompute it. -/
def remapTxn (t : Txn) (internal : Str) : Txn :=
  ensure_fingerprint { t with account_id := internal, external_ids := hmErase t.external_ids fpKey }

/-- The insert/skip partition (services/mod.rs lines 283-292): a mapped
transaction with a `"simplefin"` id already known to the store is skipped;
every other one is counted new and queued for insertion. -/
def reconcile (hasKey : Str → Bool) : List Txn → List Txn × Nat × Nat
  | [] => ([], 0, 0)
  | t :: rest =>
    let r := reconcile hasKey rest
    match hmLookup t.external_ids sfinKey with
    | some v => if hasKey v then (r.1, r.2.1, r.2.2 + 1) else (t :: r.1, r.2.1 + 1, r.2.2)
    | none => (t :: r.1, r.2.1 + 1, r.2.2)

/-- The keys of `existing_by_ext`: the `"simplefin"` ids of the stored
transactions returned by the batch external-id lookup. -/
def existingKeys (store : Store) (queries : List Str) : List Str :=
  (get_transactions_by_external_ids store queries).filterMap
    (fun t => hmLookup t.external_ids sfinKey)

/-- The account phase of one sync iteration: in a live run, upsert the
mapped accounts and record a balance snapshot for each one carrying a
balance; in a dry run, touch nothing. -/
def syncAccountsPhase (dryRun : Bool) (snapDate : Int) (store : Store)
    (updated_accounts : List Acct) : Store :=
  if dryRun then store
  else
    updated_accounts.foldl (fun s a =>
      match a.balance with
      | some b => add_balance_snapshot s a.id b snapDate
      | none => s) (bulk_upsert_accounts store updated_accounts)

/-- `account_id_map`: source-native account id → resolved internal id,
collected from the mapped accounts (`collect()` into a `HashMap`, so a
duplicated source id resolves to the last entry). -/
def accountIdMap (updated_accounts : List Acct) : List (Str × Str) :=
  updated_accounts.filterMap
    (fun a => (hmLookup a.external_ids sfinKey).map (fun ext => (ext, a.id)))

/-- Rewrite the pulled `(source_account_id, transaction)` pairs to internal
account ids, dropping the orphans whose source account did not resolve. -/
def mapProviderTxns (m : List (Str × Str)) (pts : List (Str × PTxn)) : List Txn :=
  pts.filterMap (fun pt =>
    (lookupLast m pt.1).map (fun internal => remapTxn (ptxnToTxn pt.2) internal))

/-- The queried source-native transaction ids (one single-entry map per
candidate carrying a `"simplefin"` id). -/
def syncQueries (mapped : List Txn) : List Str :=
  mapped.filterMap (fun t => hmLookup t.external_ids sfinKey)

/-- The known keys the reconciler checks candidates against (the batch
lookup is skipped entirely when there is nothing to query). -/
def syncKeys (store : Store) (mapped : List Txn) : List Str :=
  if (syncQueries mapped).isEmpty then [] else existingKeys store (syncQueries mapped)

/-- The reconcile step as the sync path runs it. -/
def syncReconcile (store : Store) (mapped : List Txn) : List Txn × Nat × Nat :=
  reconcile (fun v => (syncKeys store mapped).contains v) mapped

/-- One iteration of the `sync_all_integrations` loop for one integration
(services/mod.rs lines 145-307), with `snapDate` the calendar day used for
balance snapshots.  Returns the evolved store and the reported stats. -/
def syncIntegration (dryRun : Bool) (snapDate : Int) (store : Store) (p : ProviderData) :
    Store × TxStats :=
  let updated_accounts := (mapAccounts store.accounts p.accounts).1
  let store1 := syncAccountsPhase dryRun snapDate store updated_accounts
  let mapped_txs := mapProviderTxns (accountIdMap updated_accounts) p.transactions
  let rec_result := syncReconcile store1 mapped_txs
  let store2 :=
    if ¬ dryRun ∧ ¬ rec_result.1.isEmpty
    then bulk_upsert_transactions store1 rec_result.1 else store1
  (store2, ⟨mapped_txs.length, rec_result.2.1, rec_result.2.2⟩)

/-- `SyncService::sync_all_integrations`: process the configured sources
strictly sequentially, accumulating per-source stats.  (The CLI reports an
error and touches nothing when no integration is configured; that path is
the empty list here.) -/
def sync_all_integrations (dryRun : Bool) (snapDate : Int) (store : Store)
    (ps : List ProviderData) : Store × List TxStats :=
  ps.foldl (fun acc p =>
    let r := syncIntegration dryRun snapDate acc.1 p
    (r.1, acc.2 ++ [r.2])) (store, [])

/-! ### CSV import (`ImportService::import_csv`) -/

structure ImportStats where
  discovered : Nat
  imported : Nat
  skipped : Nat
deriving DecidableEq, Repr

/-- `ImportService::import_csv`, after the file has parsed into `parsed`
(the CSV provider builds each row with an empty external-ids map and a
placeholder account id): verify the target account, stamp the account id,
compute fingerprints, skip rows whose fingerprint already has a positive
stored count, insert the rest.  `none` models the "Account not found"
failure. -/
def import_csv (store : Store) (account_id : Str) (parsed : List Txn) :
    Option (Store × ImportStats) :=
  if ¬ store.accounts.any (fun a => a.id = account_id) then none
  else
    let transactions := parsed.map (fun t => ensure_fingerprint { t with account_id := account_id })
    let discovered := transactions.length
    let fingerprints := transactions.filterMap (fun t => hmLookup t.external_ids fpKey)
    let counts := get_transaction_counts_by_fingerprint store fingerprints
    let existing_fps := (counts.filter (fun c => 0 < c.2)).map (fun c => c.1)
    let to_insert := transactions.filter (fun t =>
      match hmLookup t.external_ids fpKey with
      | some fp => ¬ existing_fps.contains fp
      | none => true)
    let new_count := to_insert.length
    let store' := if ¬ to_insert.isEmpty then bulk_upsert_transactions store to_insert else store
    some (store', ⟨discovered, new_count, discovered - new_count⟩)

/-! ### Backfill (`BackfillService::backfill_balances`) -/

/-- The days a backfill processes: walking backward from `end_date` while
`date ≥ end_date - days`. -/
def descDates (d : Int) : Nat → List Int
  | 0 => []
  | n + 1 => d :: descDates (d - 1) n

def backfillDates (end_date : Int) (days : Int) : List Int :=
  descDates end_date (days + 1).toNat

/-- `balance_at(d)`: current balance minus the amounts of this account's
transactions dated strictly after `d`. -/
def projectedBalance (txs : List Txn) (current : Int) (d : Int) : Int :=
  current - ((txs.filter (fun t => d < t.transaction_date)).map (fun t => t.amount)).sum

/-- One trace row of a backfill: the day, the projected balance, and
whether a snapshot was (or, in dry-run, would be) created. -/
structure BEntry where
  account_id : Str
  date : Int
  balance : Int
  created : Bool
deriving DecidableEq, Repr

/-- The inner day loop of `backfill_balances` for one account.  `txs` is
the account's transaction list fetched once before the loop. -/
def backfillDays (txs : List Txn) (current : Int) (accId : Str) (dryRun : Bool) :
    Store → List Int → Store × List BEntry
  | st, [] => (st, [])
  | st, d :: rest =>
    let bal := projectedBalance txs current d
    let existing := st.snapshots.filter (fun s => s.account_id = accId ∧ s.date = d)
    let shouldCreate := ¬ existing.any (fun s => (s.balance - bal).natAbs < 1)
    let st' := if shouldCreate ∧ ¬ dryRun
      then { st with snapshots := st.snapshots ++ [⟨accId, bal, d⟩] } else st
    let r := backfillDays txs current accId dryRun st' rest
    (r.1, ⟨accId, d, bal, shouldCreate⟩ :: r.2)

/-- The accounts a backfill processes: all of them, or the requested ids. -/
def backfillAccounts (store : Store) (account_ids : Option (List Str)) : List Acct :=
  match account_ids with
  | some ids => store.accounts.filter (fun a => ids.contains a.id)
  | none => store.accounts

structure BackfillOut where
  store : Store
  trace : List BEntry
deriving DecidableEq, Repr

/-- `BackfillService::backfill_balances`; `none` models the "No accounts
found" failure.  `created`/`skipped` counts are the `created` flags of the
trace (the repository insert always succeeds in the model). -/
def backfill_balances (store : Store) (account_ids : Option (List Str)) (days : Int)
    (dryRun : Bool) (end_date : Int) : Option BackfillOut :=
  let accounts := backfillAccounts store account_ids
  if accounts.isEmpty then none
  else
    let dates := backfillDates end_date days
    some (accounts.foldl (fun acc a =>
      let txs := acc.store.transactions.filter (fun t => t.account_id = a.id)
      let current := a.balance.getD 0
      let r := backfillDays txs current a.id dryRun acc.store dates
      ⟨r.1, acc.trace ++ r.2⟩) ⟨store, []⟩)

def backfillCreated (out : BackfillOut) : Nat := out.trace.countP (fun e => e.created)
def backfillSkipped (out : BackfillOut) : Nat := out.trace.countP (fun e => ¬ e.created)

/-! ## Basic lemmas about the embedding's data structures -/

theorem hmLookup_hmInsert_self (m : List (Str × Str)) (k v : Str) :
    hmLookup (hmInsert m k v) k = some v := by
  simp [hmLookup, hmInsert]

theorem hmLookup_hmErase_ne (m : List (Str × Str)) (k k' : Str) (h : k' ≠ k) :
    hmLookup (hmErase m k) k' = hmLookup m k' := by
  induction m with
  | nil => rfl
  | cons e m ih =>
    by_cases he : e.1 = k
    · have he' : ¬ e.1 = k' := by rw [he]; exact fun hc => h hc.symm
      simp [hmErase, hmLookup, he, he', ih, h, Ne.symm h]
    · by_cases he' : e.1 = k'
      · simp [hmErase, hmLookup, he, he', h, Ne.symm h]
      · simp [hmErase, hmLookup, he, he', ih, h, Ne.symm h]

theorem hmLookup_hmInsert_ne (m : List (Str × Str)) (k k' v : Str) (h : k' ≠ k) :
    hmLookup (hmInsert m k v) k' = hmLookup m k' := by
  have hk : ¬ (k = k') := fun hc => h hc.symm
  simp [hmInsert, hmLookup, hk, hmLookup_hmErase_ne m k k' h]

theorem prefSub_refl (s : Str) : prefSub s s = true := by
  induction s with
  | nil => rfl
  | cons c cs ih => simp [prefSub, ih]

theorem containsSub_self (s : Str) : containsSub s s = true := by
  cases s with
  | nil => rfl
  | cons c cs => simp [containsSub, prefSub_refl]

/-! ## C1: fingerprint format and purity -/

theorem sha256_length (msg : List Nat) : (sha256 msg).length = 32 := by
  simp [sha256, wordBytes]

theorem hexEncode_cons (b : Nat) (bs : List Nat) :
    hexEncode (b :: bs) = byteHex b ++ hexEncode bs := rfl

theorem hexEncode_length (bs : List Nat) : (hexEncode bs).length = 2 * bs.length := by
  induction bs with
  | nil => rfl
  | cons b bs ih => simp [hexEncode_cons, byteHex] at *; omega

theorem getD_hexChars_mem (i : Nat) : hexChars[i]?.getD '0' ∈ hexChars := by
  rcases Nat.lt_or_ge i 16 with h | h
  · interval_cases i <;> decide
  · have : hexChars[i]? = none := List.getElem?_eq_none (by simpa [hexChars] using h)
    rw [this]; decide

theorem mem_hexEncode (c : Char) (bs : List Nat) (h : c ∈ hexEncode bs) : c ∈ hexChars := by
  induction bs with
  | nil => simp [hexEncode] at h
  | cons b bs ih =>
    rw [hexEncode_cons] at h
    rcases List.mem_append.mp h with h | h
    · simp [byteHex] at h
      rcases h with h | h <;> exact h ▸ getD_hexChars_mem _
    · exact ih h

/-- C1: the transaction fingerprint is a pure function of
(account id, transaction date, amount, description): re-invocation yields
the identical output; the output is exactly 16 characters, each a lowercase
hex digit; it equals the hex encoding of the first 8 bytes of the SHA-256
digest of the UTF-8 string
`"{account_id}|{date as YYYY-MM-DD}|{amount as fixed 2-decimal string}|{normalized_description}"`;
and a numerically zero amount is collapsed to canonical zero, so the sign
of a zero is ignored. -/
theorem fingerprint_pure_and_format (a : Str) (d : Int) (amt : Dec2) (desc : Option Str) :
    calculate_fingerprint a d amt desc = calculate_fingerprint a d amt desc
    ∧ (calculate_fingerprint a d amt desc).length = 16
    ∧ (∀ c ∈ calculate_fingerprint a d amt desc, c ∈ hexChars)
    ∧ calculate_fingerprint a d amt desc
        = hexEncode ((sha256 (utf8Encode
            (a ++ '|' :: formatDate d ++
             '|' :: formatDec2 (if amt.cents = 0 then ⟨false, 0⟩ else amt) ++
             '|' :: normalize_description (asciiLower (desc.getD []))))).take 8)
    ∧ calculate_fingerprint a d ⟨true, 0⟩ desc = calculate_fingerprint a d ⟨false, 0⟩ desc := by
  refine ⟨rfl, ?_, ?_, rfl, rfl⟩
  · rw [calculate_fingerprint, hexEncode_length, List.length_take, sha256_length]; decide
  · intro c hc
    exact mem_hexEncode c _ hc

/-! ## C8: sync window planning -/

theorem maxTxDate_aux (txs : List Txn) (m : Int) :
    txs.foldl (fun acc t =>
      match acc with
      | none => some t.transaction_date
      | some m => some (max m t.transaction_date)) (some m)
    = some (txs.foldl (fun acc t => max acc t.transaction_date) m) := by
  induction txs generalizing m with
  | nil => rfl
  | cons t ts ih => simpa using ih (max m t.transaction_date)

theorem maxTxDate_eq_none_iff (txs : List Txn) : maxTxDate txs = none ↔ txs = [] := by
  cases txs with
  | nil => simp [maxTxDate]
  | cons t ts => simp [maxTxDate, maxTxDate_aux]

theorem foldl_max_spec (ts : List Txn) (m : Int) :
    (m = ts.foldl (fun acc t => max acc t.transaction_date) m
      ∨ ∃ t ∈ ts, t.transaction_date = ts.foldl (fun acc t => max acc t.transaction_date) m)
    ∧ m ≤ ts.foldl (fun acc t => max acc t.transaction_date) m
    ∧ ∀ t ∈ ts, t.transaction_date ≤ ts.foldl (fun acc t => max acc t.transaction_date) m := by
  induction ts generalizing m with
  | nil => simp
  | cons t ts ih =>
    obtain ⟨h1, h2, h3⟩ := ih (max m t.transaction_date)
    simp only [List.foldl_cons]
    refine ⟨?_, ?_, ?_⟩
    · rcases h1 with h1 | ⟨u, hu, hu2⟩
      · rcases max_cases m t.transaction_date with ⟨he, _⟩ | ⟨he, _⟩
        · left; simpa [he] using h1
        · right; exact ⟨t, by simp, by rw [he]; rw [he] at h1; exact h1⟩
      · right; exact ⟨u, by simp [hu], hu2⟩
    · exact le_trans (le_max_left _ _) h2
    · intro u hu
      rcases List.mem_cons.mp hu with rfl | hu
      · exact le_trans (le_max_right _ _) h2
      · exact h3 u hu

theorem maxTxDate_spec (txs : List Txn) (D : Int) (h : maxTxDate txs = some D) :
    (∃ t ∈ txs, t.transaction_date = D) ∧ ∀ t ∈ txs, t.transaction_date ≤ D := by
  cases txs with
  | nil => simp [maxTxDate] at h
  | cons t ts =>
    rw [maxTxDate, List.foldl_cons] at h
    rw [maxTxDate_aux] at h
    obtain ⟨h1, h2, h3⟩ := foldl_max_spec ts t.transaction_date
    have hD : ts.foldl (fun acc t => max acc t.transaction_date) t.transaction_date = D := by
      simpa using h
    refine ⟨?_, ?_⟩
    · rcases h1 with h1 | ⟨u, hu, hu2⟩
      · exact ⟨t, by simp, by rw [h1, hD]⟩
      · exact ⟨u, by simp [hu], by rw [hu2, hD]⟩
    · intro u hu
      rcases List.mem_cons.mp hu with rfl | hu
      · exact hD ▸ h2
      · exact hD ▸ h3 u hu

/-- C8: the planned sync window always ends at `now`; with no stored
transaction (no maximum transaction date obtainable) it starts 90 days
before `now` and is labelled `"initial"`; with stored maximum transaction
date `D` (a date every stored transaction is on or before, attained by one
of them) it starts 7 days before midnight of `D` and is labelled
`"incremental"`. -/
theorem sync_window_planning (now : Int) (txs : List Txn) :
    (calculate_sync_date_range now txs).stop = now
    ∧ (maxTxDate txs = none ↔ txs = [])
    ∧ (txs = [] →
        calculate_sync_date_range now txs = ⟨now - 90 * 86400, now, "initial"⟩)
    ∧ (∀ D, maxTxDate txs = some D →
        calculate_sync_date_range now txs = ⟨D * 86400 - 7 * 86400, now, "incremental"⟩
        ∧ (∃ t ∈ txs, t.transaction_date = D) ∧ ∀ t ∈ txs, t.transaction_date ≤ D) := by
  refine ⟨?_, maxTxDate_eq_none_iff txs, ?_, ?_⟩
  · rw [calculate_sync_date_range]
    cases maxTxDate txs <;> rfl
  · rintro rfl; rfl
  · intro D hD
    refine ⟨?_, maxTxDate_spec txs D hD⟩
    rw [calculate_sync_date_range, hD]

/-- Witness for C8 at concrete inputs: an empty store plans
`[now-90d, now]`/`"initial"`, and a store whose latest transaction is on
day 19999 plans `[midnight(19999)-7d, now]`/`"incremental"`. -/
theorem sync_window_planning_witness :
    calculate_sync_date_range 1000 [] = ⟨1000 - 90 * 86400, 1000, "initial"⟩
    ∧ calculate_sync_date_range 1000 [⟨"t1".toList, "a1".toList, [], -2000, none, 19999⟩]
        = ⟨19999 * 86400 - 7 * 86400, 1000, "incremental"⟩ :=
  ⟨(sync_window_planning 1000 []).2.2.1 rfl,
   ((sync_window_planning 1000 [⟨"t1".toList, "a1".toList, [], -2000, none, 19999⟩]).2.2.2
      19999 (by decide)).1⟩

/-! ## C7: description normalization -/

def nullStr : Str := 'n' :: 'u' :: 'l' :: 'l' :: []

theorem removeNullSub_cons (c : Char) (cs : Str) :
    removeNullSub (c :: cs) =
      if prefSub nullStr (c :: cs)
      then removeNullSub (cs.drop 3)
      else c :: removeNullSub cs := by
  by_cases hc : c = 'n'
  · subst hc
    cases cs with
    | nil => simp [removeNullSub, nullStr, prefSub]
    | cons c2 cs2 =>
      by_cases h2 : c2 = 'u'
      · subst h2
        cases cs2 with
        | nil => simp [removeNullSub, nullStr, prefSub]
        | cons c3 cs3 =>
          by_cases h3 : c3 = 'l'
          · subst h3
            cases cs3 with
            | nil => simp [removeNullSub, nullStr, prefSub]
            | cons c4 cs4 =>
              by_cases h4 : c4 = 'l'
              · subst h4; simp [removeNullSub, nullStr, prefSub]
              · simp [removeNullSub, nullStr, prefSub, h4, Ne.symm h4]
          · simp [removeNullSub, nullStr, prefSub, h3, Ne.symm h3]
      · simp [removeNullSub, nullStr, prefSub, h2, Ne.symm h2]
  · simp [removeNullSub, nullStr, prefSub, hc, Ne.symm hc]

theorem prefSub_null_decomp (c : Char) (cs : Str) (h : prefSub nullStr (c :: cs) = true) :
    c = 'n' ∧ ∃ rest, cs = 'u' :: 'l' :: 'l' :: rest := by
  match cs with
  | [] => simp [nullStr, prefSub] at h
  | [c2] => simp [nullStr, prefSub] at h
  | [c2, c3] => simp [nullStr, prefSub] at h
  | c2 :: c3 :: c4 :: cs4 =>
    simp only [nullStr, prefSub] at h
    split at h
    · split at h
      · split at h
        · split at h
          · rename_i h1 h2 h3 h4
            exact ⟨h1.symm, cs4, by rw [← h2, ← h3, ← h4]⟩
          · exact absurd h (by simp)
        · exact absurd h (by simp)
      · exact absurd h (by simp)
    · exact absurd h (by simp)

theorem removeNullSub_length_le (s : Str) : (removeNullSub s).length ≤ s.length := by
  induction s using removeNullSub.induct with
  | case1 rest ih => simp only [removeNullSub, List.length_cons]; omega
  | case2 c cs ih hrec =>
    rw [removeNullSub_cons]
    cases hp : prefSub nullStr (c :: cs) with
    | true =>
      obtain ⟨rfl, rest, rfl⟩ := prefSub_null_decomp c cs hp
      exact absurd rfl (fun hcontra => ih rest rfl hcontra)
    | false => simpa using hrec
  | case3 => exact le_refl _

theorem removeNullSub_id_of_not_contains (s : Str) (h : containsSub nullStr s = false) :
    removeNullSub s = s := by
  induction s with
  | nil => rfl
  | cons c cs ih =>
    simp only [containsSub, Bool.or_eq_false_iff] at h
    rw [removeNullSub_cons, h.1, if_neg (by simp)]
    rw [ih h.2]

theorem prefSub_length (p s : Str) (h : prefSub p s = true) : p.length ≤ s.length := by
  induction p generalizing s with
  | nil => simp
  | cons a p ih =>
    cases s with
    | nil => simp [prefSub] at h
    | cons b s =>
      simp only [prefSub] at h
      split at h
      · simpa using ih s h
      · exact absurd h (by simp)

theorem removeNullSub_shrinks (s : Str) (h : containsSub nullStr s = true) :
    (removeNullSub s).length + 4 ≤ s.length := by
  induction s with
  | nil => simp [containsSub, nullStr] at h
  | cons c cs ih =>
    rw [removeNullSub_cons]
    cases hp : prefSub nullStr (c :: cs) with
    | true =>
      have hlen : 4 ≤ (c :: cs).length := by
        simpa [nullStr] using prefSub_length nullStr (c :: cs) hp
      have hle := removeNullSub_length_le (cs.drop 3)
      have hg : (if (true : Bool) = true then removeNullSub (cs.drop 3)
          else c :: removeNullSub cs) = removeNullSub (cs.drop 3) := by simp
      rw [hg]
      simp only [List.length_drop, List.length_cons] at *
      omega
    | false =>
      simp only [containsSub, hp, Bool.false_or] at h
      have := ih h
      have hg : (if (false : Bool) = true then removeNullSub (cs.drop 3)
          else c :: removeNullSub cs) = c :: removeNullSub cs := by simp
      rw [hg]
      simp only [List.length_cons]
      omega

/-- Modelled from the spec's words (the claim side of C7, for comparison):
remove `"null"` (in the lower-cased text) only where it occurs as a whole
word, i.e. not flanked by an alphanumeric character on either side; `prev`
carries the previously scanned character of the original text. -/
def specRemoveNull (prev : Option Char) : Str → Str
  | 'n' :: 'u' :: 'l' :: 'l' :: rest =>
    if (prev.elim true (fun p => ¬ p.isAlphanum))
       ∧ (rest.head?.elim true (fun n => ¬ n.isAlphanum))
    then specRemoveNull (some 'l') rest
    else 'n' :: specRemoveNull (some 'n') ('u' :: 'l' :: 'l' :: rest)
  | c :: cs => c :: specRemoveNull (some c) cs
  | [] => []

/-- The normalization C7 claims: lower-case, remove whole-word `"null"`,
strip non-alphanumerics. -/
def specNormalizeDescription (desc : Str) : Str :=
  (specRemoveNull none (asciiLower desc)).filter Char.isAlphanum

/-- Counterexample to C7: on the description `"annulled"`, whose `"null"`
occurrence sits inside a longer word, the code's normalization deletes it
(`normalize_description` removes `"null"` as a plain substring), yielding
`"aned"`, whereas the claimed whole-word rule would leave `"annulled"`
intact. -/
theorem normalize_description_whole_word_counterexample :
    normalize_description (asciiLower ("annulled".toList)) = "aned".toList
    ∧ specNormalizeDescription ("annulled".toList) = "annulled".toList
    ∧ normalize_description (asciiLower ("annulled".toList))
        ≠ specNormalizeDescription ("annulled".toList) :=
  ⟨by decide, by decide, by decide⟩

/-- C7 as amended: the normalized description is obtained by lower-casing
the description, removing every occurrence of the substring `"null"`
(non-overlapping, scanning left to right) — including occurrences inside
longer words — and stripping every remaining non-alphanumeric character.
Every character of the result is alphanumeric; a description whose
lower-casing does not contain `"null"` is only alphanumeric-filtered; one
that does contain it loses at least the four matched characters. -/
theorem normalize_description_amended (desc : Str) :
    normalize_description (asciiLower desc)
        = (removeNullSub (asciiLower desc)).filter Char.isAlphanum
    ∧ (∀ c ∈ normalize_description (asciiLower desc), c.isAlphanum)
    ∧ (containsSub nullStr (asciiLower desc) = false →
        removeNullSub (asciiLower desc) = asciiLower desc)
    ∧ (containsSub nullStr (asciiLower desc) = true →
        (removeNullSub (asciiLower desc)).length + 4 ≤ (asciiLower desc).length) := by
  refine ⟨rfl, ?_, removeNullSub_id_of_not_contains _, removeNullSub_shrinks _⟩
  intro c hc
  exact (List.mem_filter.mp hc).2

/-- Witness for C7's amended theorem at `"annulled"`: the lower-cased text
contains `"null"` and the normalization really removes those characters. -/
theorem normalize_description_amended_witness :
    containsSub nullStr (asciiLower ("annulled".toList)) = true
    ∧ (removeNullSub (asciiLower ("annulled".toList))).length + 4
        ≤ (asciiLower ("annulled".toList)).length :=
  ⟨by decide, (normalize_description_amended ("annulled".toList)).2.2.2 (by decide)⟩

/-! ## C3: account matching and merging -/

theorem mapAccounts_fst (ex ds : List Acct) :
    (mapAccounts ex ds).1 = ds.map (fun d =>
      match findMatch d ex with
      | some e => mergeAccount d e
      | none => d) := by
  induction ds with
  | nil => rfl
  | cons d ds ih =>
    simp only [mapAccounts, List.map_cons]
    cases h : findMatch d ex <;> simp [h, ih]

theorem mapAccounts_snd (ex ds : List Acct) :
    (mapAccounts ex ds).2 = ds.filter (fun d => (findMatch d ex).isNone) := by
  induction ds with
  | nil => rfl
  | cons d ds ih =>
    simp only [mapAccounts, List.filter_cons]
    cases h : findMatch d ex <;> simp [h, ih]

theorem findMatch_some (d e : Acct) (ex : List Acct) (h : findMatch d ex = some e) :
    e ∈ ex ∧ ∃ v, hmLookup d.external_ids sfinKey = some v
      ∧ hmLookup e.external_ids sfinKey = some v := by
  refine ⟨List.mem_of_find?_eq_some h, ?_⟩
  have hp := List.find?_some h
  cases hd : hmLookup d.external_ids sfinKey with
  | none => rw [hd] at hp; simp at hp
  | some dv =>
    cases he : hmLookup e.external_ids sfinKey with
    | none => rw [hd, he] at hp; simp at hp
    | some ev =>
      rw [hd, he] at hp
      simp only [decide_eq_true_eq] at hp
      exact ⟨dv, rfl, by simp [he, hp]⟩

theorem findMatch_none_iff (d : Acct) (ex : List Acct) :
    findMatch d ex = none ↔
      ∀ e ∈ ex, ¬ ∃ v, hmLookup d.external_ids sfinKey = some v
        ∧ hmLookup e.external_ids sfinKey = some v := by
  rw [findMatch, List.find?_eq_none]
  constructor
  · intro h e he ⟨v, hd, hev⟩
    have := h e he
    rw [hd, hev] at this
    simp at this
  · intro h e he
    cases hd : hmLookup d.external_ids sfinKey with
    | none => simp
    | some dv =>
      cases hev : hmLookup e.external_ids sfinKey with
      | none => simp
      | some ev =>
        simp only [decide_eq_true_eq]
        intro hc
        exact h e he ⟨dv, hd, by rw [hev, hc]⟩

/-- C3: a discovered account whose `"simplefin"` external id exactly equals
that of some stored account is merged keeping the stored internal id and
`account_type` while adopting the discovered name, currency, balance,
external ids and institution metadata; a discovered account with no such
match is carried unchanged (its own id) into the upsert list and reported
as a new account. -/
theorem account_matching_merge (existing discovered : List Acct) (d : Acct)
    (hd : d ∈ discovered) :
    (∀ e, findMatch d existing = some e →
      e ∈ existing
      ∧ (∃ v, hmLookup d.external_ids sfinKey = some v
          ∧ hmLookup e.external_ids sfinKey = some v)
      ∧ mergeAccount d e ∈ (mapAccounts existing discovered).1
      ∧ (mergeAccount d e).id = e.id
      ∧ (mergeAccount d e).account_type = e.account_type
      ∧ (mergeAccount d e).name = d.name
      ∧ (mergeAccount d e).currency = d.currency
      ∧ (mergeAccount d e).balance = d.balance
      ∧ (mergeAccount d e).external_ids = d.external_ids
      ∧ (mergeAccount d e).institution_name = d.institution_name
      ∧ (mergeAccount d e).institution_url = d.institution_url
      ∧ (mergeAccount d e).institution_domain = d.institution_domain)
    ∧ (findMatch d existing = none ↔
        ∀ e ∈ existing, ¬ ∃ v, hmLookup d.external_ids sfinKey = some v
          ∧ hmLookup e.external_ids sfinKey = some v)
    ∧ (findMatch d existing = none →
        d ∈ (mapAccounts existing discovered).1
        ∧ d ∈ (mapAccounts existing discovered).2) := by
  refine ⟨?_, findMatch_none_iff d existing, ?_⟩
  · intro e he
    obtain ⟨hmem, hv⟩ := findMatch_some d e existing he
    refine ⟨hmem, hv, ?_, rfl, rfl, rfl, rfl, rfl, rfl, rfl, rfl, rfl⟩
    rw [mapAccounts_fst]
    refine List.mem_map.mpr ⟨d, hd, ?_⟩
    simp [he]
  · intro hn
    constructor
    · rw [mapAccounts_fst]
      refine List.mem_map.mpr ⟨d, hd, ?_⟩
      simp [hn]
    · rw [mapAccounts_snd]
      exact List.mem_filter.mpr ⟨hd, by simp [hn]⟩

/-- Witness for C3 at concrete accounts: a stored account with id
`"stored"` and type `"checking"`, and a discovered account sharing its
`"simplefin"` id, merge into an account keeping `"stored"`/`"checking"`
and taking the discovered name and balance. -/
theorem account_matching_merge_witness :
    (⟨"disc".toList, "New Name".toList, none, none, "USD".toList,
       [(sfinKey, "x1".toList)], some 777, none, none, none⟩ : Acct)
      ∈ ([⟨"disc".toList, "New Name".toList, none, none, "USD".toList,
           [(sfinKey, "x1".toList)], some 777, none, none, none⟩] : List Acct)
    ∧ (findMatch
        ⟨"disc".toList, "New Name".toList, none, none, "USD".toList,
          [(sfinKey, "x1".toList)], some 777, none, none, none⟩
        [⟨"stored".toList, "Old".toList, none, some "checking".toList, "USD".toList,
          [(sfinKey, "x1".toList)], none, none, none, none⟩]
        = some ⟨"stored".toList, "Old".toList, none, some "checking".toList, "USD".toList,
          [(sfinKey, "x1".toList)], none, none, none, none⟩
      → (mergeAccount
          ⟨"disc".toList, "New Name".toList, none, none, "USD".toList,
            [(sfinKey, "x1".toList)], some 777, none, none, none⟩
          ⟨"stored".toList, "Old".toList, none, some "checking".toList, "USD".toList,
            [(sfinKey, "x1".toList)], none, none, none, none⟩).id = "stored".toList) := by
  refine ⟨by decide, ?_⟩
  intro he
  exact ((account_matching_merge
    [⟨"stored".toList, "Old".toList, none, some "checking".toList, "USD".toList,
      [(sfinKey, "x1".toList)], none, none, none, none⟩]
    [⟨"disc".toList, "New Name".toList, none, none, "USD".toList,
      [(sfinKey, "x1".toList)], some 777, none, none, none⟩]
    ⟨"disc".toList, "New Name".toList, none, none, "USD".toList,
      [(sfinKey, "x1".toList)], some 777, none, none, none⟩
    (by decide)).1 _ he).2.2.2.1

/-! ## C4 and C5: backfill balance projection -/

theorem backfillDates_zero (e : Int) : backfillDates e 0 = [e] := rfl

theorem descDates_eq_range_map (n : Nat) : ∀ d : Int,
    descDates d n = (List.range n).map (fun k : Nat => d - (k : Int)) := by
  induction n with
  | zero => intro d; rfl
  | succ n ih =>
    intro d
    rw [descDates, List.range_succ_eq_map, List.map_cons, List.map_map, ih (d - 1)]
    congr 1
    · omega
    · apply List.map_congr_left
      intro k _
      simp only [Function.comp_apply]
      omega

theorem backfillDays_transactions (txs : List Txn) (cur : Int) (accId : Str) (dry : Bool) :
    ∀ (dates : List Int) (st : Store),
      (backfillDays txs cur accId dry st dates).1.transactions = st.transactions := by
  intro dates
  induction dates with
  | nil => intro st; rfl
  | cons d rest ih =>
    intro st
    rw [backfillDays]
    split <;> exact ih _

theorem backfillDays_accounts (txs : List Txn) (cur : Int) (accId : Str) (dry : Bool) :
    ∀ (dates : List Int) (st : Store),
      (backfillDays txs cur accId dry st dates).1.accounts = st.accounts := by
  intro dates
  induction dates with
  | nil => intro st; rfl
  | cons d rest ih =>
    intro st
    rw [backfillDays]
    split <;> exact ih _

theorem backfillDays_trace (txs : List Txn) (cur : Int) (accId : Str) (dry : Bool) :
    ∀ (dates : List Int) (st : Store),
      (backfillDays txs cur accId dry st dates).2.map (fun e => (e.account_id, e.date, e.balance))
        = dates.map (fun d => (accId, d, projectedBalance txs cur d)) := by
  intro dates
  induction dates with
  | nil => intro st; rfl
  | cons d rest ih =>
    intro st
    rw [backfillDays]
    simp only [List.map_cons]
    rw [ih]

theorem backfill_fold (dates : List Int) (dry : Bool) (base : List Txn) :
    ∀ (accounts : List Acct) (st0 : Store) (tr0 : List BEntry),
      st0.transactions = base →
      ((accounts.foldl (fun acc a =>
          let txs := acc.store.transactions.filter (fun t => t.account_id = a.id)
          let current := a.balance.getD 0
          let r := backfillDays txs current a.id dry acc.store dates
          (⟨r.1, acc.trace ++ r.2⟩ : BackfillOut)) ⟨st0, tr0⟩).trace).map
            (fun e => (e.account_id, e.date, e.balance))
        = tr0.map (fun e => (e.account_id, e.date, e.balance))
          ++ accounts.flatMap (fun a => dates.map (fun d =>
              (a.id, d, projectedBalance (base.filter (fun t => t.account_id = a.id))
                (a.balance.getD 0) d))) := by
  intro accounts
  induction accounts with
  | nil => intro st0 tr0 h; simp
  | cons a rest ih =>
    intro st0 tr0 h
    rw [List.foldl_cons, List.flatMap_cons]
    have htx : (backfillDays (st0.transactions.filter (fun t => t.account_id = a.id))
        (a.balance.getD 0) a.id dry st0 dates).1.transactions = base := by
      rw [backfillDays_transactions]; exact h
    rw [ih _ _ htx]
    rw [List.map_append, backfillDays_trace, h, List.append_assoc]

/-- C4: every day a backfill processes walks backward from `end_date` to
`end_date - days` inclusive, and the projected balance it records for each
processed `(account, day d)` pair is the account's current balance minus
the sum of that account's transactions dated strictly after `d`; an account
with no transactions gets its current balance on every processed day, and
`days = 0` processes only `end_date`. -/
theorem backfill_projection (store : Store) (ids : Option (List Str)) (days : Int)
    (dry : Bool) (end_date : Int) (out : BackfillOut)
    (h : backfill_balances store ids days dry end_date = some out) :
    out.trace.map (fun e => (e.account_id, e.date, e.balance))
      = (backfillAccounts store ids).flatMap (fun a =>
          (backfillDates end_date days).map (fun d =>
            (a.id, d, projectedBalance (store.transactions.filter (fun t => t.account_id = a.id))
              (a.balance.getD 0) d)))
    ∧ (∀ a ∈ backfillAccounts store ids,
        store.transactions.filter (fun t => t.account_id = a.id) = [] →
        ∀ d ∈ backfillDates end_date days,
          (a.id, d, a.balance.getD 0)
            ∈ out.trace.map (fun e => (e.account_id, e.date, e.balance)))
    ∧ (0 ≤ days →
        backfillDates end_date days = (List.range (days.toNat + 1)).map (fun k : Nat => end_date - (k : Int)))
    ∧ backfillDates end_date 0 = [end_date] := by
  rw [backfill_balances] at h
  split at h
  · exact absurd h (by simp)
  · have hout : out = (backfillAccounts store ids).foldl (fun acc a =>
        let txs := acc.store.transactions.filter (fun t => t.account_id = a.id)
        let current := a.balance.getD 0
        let r := backfillDays txs current a.id dry acc.store (backfillDates end_date days)
        (⟨r.1, acc.trace ++ r.2⟩ : BackfillOut)) ⟨store, []⟩ := by
      injection h.symm
    have htrace := backfill_fold (backfillDates end_date days) dry store.transactions
        (backfillAccounts store ids) store [] rfl
    refine ⟨?_, ?_, ?_, rfl⟩
    · rw [hout]
      simpa using htrace
    · intro a ha hnone d hd
      rw [hout]
      have := htrace
      simp only [List.map_nil, List.nil_append] at this
      rw [this]
      refine List.mem_flatMap.mpr ⟨a, ha, List.mem_map.mpr ⟨d, hd, ?_⟩⟩
      rw [hnone]
      simp [projectedBalance]
    · intro hdays
      rw [backfillDates]
      have : (days + 1).toNat = days.toNat + 1 := by omega
      rw [this]
      exact descDates_eq_range_map _ end_date

/-- Witness for C4: a store with one account (balance 50.00, no
transactions), backfilled for 0 days, projects exactly `[(a1, end, 50.00)]`. -/
theorem backfill_projection_witness :
    backfill_balances
        ⟨[⟨"a1".toList, "A".toList, none, none, "USD".toList, [], some 5000, none, none, none⟩],
         [], []⟩ none 0 false 100
      = some ⟨⟨[⟨"a1".toList, "A".toList, none, none, "USD".toList, [], some 5000, none, none, none⟩],
              [], [⟨"a1".toList, 5000, 100⟩]⟩,
             [⟨"a1".toList, 100, 5000, true⟩]⟩
    ∧ ([⟨"a1".toList, 100, 5000, true⟩] : List BEntry).map
        (fun e => (e.account_id, e.date, e.balance))
      = (backfillAccounts
          ⟨[⟨"a1".toList, "A".toList, none, none, "USD".toList, [], some 5000, none, none, none⟩],
           [], []⟩ none).flatMap (fun a =>
          (backfillDates 100 0).map (fun d =>
            (a.id, d, projectedBalance
              ((⟨[⟨"a1".toList, "A".toList, none, none, "USD".toList, [], some 5000, none, none,
                  none⟩], [], []⟩ : Store).transactions.filter (fun t => t.account_id = a.id))
              (a.balance.getD 0) d))) :=
  ⟨by decide,
   (backfill_projection
      ⟨[⟨"a1".toList, "A".toList, none, none, "USD".toList, [], some 5000, none, none, none⟩],
       [], []⟩ none 0 false 100
      ⟨⟨[⟨"a1".toList, "A".toList, none, none, "USD".toList, [], some 5000, none, none, none⟩],
        [], [⟨"a1".toList, 5000, 100⟩]⟩,
       [⟨"a1".toList, 100, 5000, true⟩]⟩ (by decide)).1⟩

/-- The C5 scenario store: one account with current balance 100.00 and one
transaction of -20.00 dated yesterday (day 19999, "today" being 20000). -/
def c5Store : Store :=
  ⟨[⟨"a1".toList, "Checking".toList, none, none, "USD".toList, [], some 10000, none, none, none⟩],
   [⟨"t1".toList, "a1".toList, [], -2000, some "coffee".toList, 19999⟩], []⟩

/-- Counterexample to C5: backfilling 2 days over the scenario store
produces 100.00 (not 120.00) for yesterday — the projection at day `d`
subtracts only transactions dated strictly after `d`, so yesterday's
transaction is already reflected in yesterday's balance.  The claimed pair
(yesterday, 120.00) is not in the trace. -/
theorem backfill_scenario_counterexample :
    (backfill_balances c5Store none 2 false 20000).map
        (fun o => o.trace.map (fun e => (e.date, e.balance)))
      = some [(20000, 10000), (19999, 10000), (19998, 12000)]
    ∧ (backfill_balances c5Store none 2 false 20000).map
        (fun o => decide ((19999, (12000 : Int)) ∈ o.trace.map (fun e => (e.date, e.balance))))
      = some false :=
  ⟨by decide, by decide⟩

/-- C5 as amended: for an account with current balance 100.00 and exactly
one transaction of -20.00 dated yesterday, backfilling 2 days produces a
projected balance of 100.00 for today, 100.00 for yesterday, and 120.00
for the day before yesterday. -/
theorem backfill_scenario_amended :
    (backfill_balances c5Store none 2 false 20000).map
        (fun o => o.trace.map (fun e => (e.date, e.balance)))
      = some [(20000, 10000), (19999, 10000), (19998, 12000)] :=
  by decide

/-! ## C6: CSV import fingerprint dedup -/

/-- The transactions an import works on: each parsed row gets the target
account id and a fingerprint. -/
def importPrepared (aid : Str) (parsed : List Txn) : List Txn :=
  parsed.map (fun t => ensure_fingerprint { t with account_id := aid })

theorem ensure_fingerprint_of_empty (t : Txn) (h : t.external_ids = []) :
    hmLookup (ensure_fingerprint t).external_ids fpKey = some (txnFingerprint t) := by
  rw [ensure_fingerprint, h]
  simp [hmLookup, hmInsert, hmErase]

theorem counts_contains_iff (store : Store) (fps : List Str) (fp : Str) (hfp : fp ∈ fps) :
    (((get_transaction_counts_by_fingerprint store fps).filter (fun c => 0 < c.2)).map
        (fun c => c.1)).contains fp = true
      ↔ 0 < store.transactions.countP (fun t => hmLookup t.external_ids fpKey = some fp) := by
  rw [List.contains_iff_exists_mem_beq]
  constructor
  · rintro ⟨f, hf, hbeq⟩
    obtain ⟨c, hc, rfl⟩ := List.mem_map.mp hf
    obtain ⟨hcmem, hpos⟩ := List.mem_filter.mp hc
    obtain ⟨g, _, rfl⟩ := List.mem_map.mp hcmem
    have : fp = g := eq_of_beq hbeq
    subst this
    simpa using hpos
  · intro hpos
    refine ⟨fp, ?_, by simp⟩
    refine List.mem_map.mpr ⟨(fp, store.transactions.countP
      (fun t => hmLookup t.external_ids fpKey = some fp)), ?_, rfl⟩
    refine List.mem_filter.mpr ⟨List.mem_map.mpr ⟨fp, hfp, rfl⟩, by simpa using hpos⟩

/-- Counterexample to C6: importing two rows with identical date, amount
and description into an empty ledger inserts BOTH of them (imported = 2),
leaving two stored transactions carrying the shared fingerprint — not the
single stored transaction the claim asserts (the insert filter consults
only the counts already stored, never the batch itself). -/
theorem import_collision_counterexample :
    (import_csv
        ⟨[⟨"a1".toList, "A".toList, none, none, "USD".toList, [], none, none, none, none⟩],
         [], []⟩
        ("a1".toList)
        [⟨"r1".toList, [], [], -500, some "Coffee".toList, 19999⟩,
         ⟨"r2".toList, [], [], -500, some "Coffee".toList, 19999⟩]).map
        (fun r => (r.2.discovered, r.2.imported, r.2.skipped,
          r.1.transactions.countP (fun t => hmLookup t.external_ids fpKey
            = some (txnFingerprint ⟨"r1".toList, "a1".toList, [], -500,
                some "Coffee".toList, 19999⟩))))
      = some (2, 2, 0, 2)
    ∧ (2 : Nat) ≠ 1 :=
  ⟨by decide, by decide⟩

/-- C6 as amended: a parsed row is skipped exactly when its fingerprint
already has a positive stored count, and the rest are inserted (the batch
itself is not consulted, so rows that collide within one file are all
inserted); in the two-identical-row scenario the first import reports
discovered 2 / imported 2 / skipped 0 and leaves two stored transactions
with the shared fingerprint, and a second import of the same file reports
discovered 2 / imported 0 / skipped 2. -/
theorem import_fingerprint_dedup :
    (∀ (store : Store) (aid : Str) (parsed : List Txn) (st' : Store) (stats : ImportStats),
      (∀ t ∈ parsed, t.external_ids = []) →
      import_csv store aid parsed = some (st', stats) →
      stats.discovered = parsed.length
      ∧ stats.imported + stats.skipped = parsed.length
      ∧ stats.imported = ((importPrepared aid parsed).filter (fun t =>
          store.transactions.countP (fun r => hmLookup r.external_ids fpKey
            = hmLookup t.external_ids fpKey) = 0)).length
      ∧ st' = (if ((importPrepared aid parsed).filter (fun t =>
          store.transactions.countP (fun r => hmLookup r.external_ids fpKey
            = hmLookup t.external_ids fpKey) = 0)).isEmpty then store
          else bulk_upsert_transactions store ((importPrepared aid parsed).filter (fun t =>
            store.transactions.countP (fun r => hmLookup r.external_ids fpKey
              = hmLookup t.external_ids fpKey) = 0))))
    ∧ ((import_csv
          ⟨[⟨"a1".toList, "A".toList, none, none, "USD".toList, [], none, none, none, none⟩],
           [], []⟩
          ("a1".toList)
          [⟨"r1".toList, [], [], -500, some "Coffee".toList, 19999⟩,
           ⟨"r2".toList, [], [], -500, some "Coffee".toList, 19999⟩]).bind
        (fun r => (import_csv r.1 ("a1".toList)
          [⟨"r1".toList, [], [], -500, some "Coffee".toList, 19999⟩,
           ⟨"r2".toList, [], [], -500, some "Coffee".toList, 19999⟩]).map
          (fun r2 => (r.2.discovered, r.2.imported, r.2.skipped,
            r.1.transactions.countP (fun t => hmLookup t.external_ids fpKey
              = some (txnFingerprint ⟨"r1".toList, "a1".toList, [], -500,
                  some "Coffee".toList, 19999⟩)),
            r2.2.discovered, r2.2.imported, r2.2.skipped))))
      = some (2, 2, 0, 2, 2, 0, 2) := by
  constructor
  · intro store aid parsed st' stats hcsv h
    rw [import_csv] at h
    split at h
    · exact absurd h (by simp)
    · have hfilter : (parsed.map (fun t => ensure_fingerprint { t with account_id := aid })).filter
          (fun t =>
            match hmLookup t.external_ids fpKey with
            | some fp => ¬ (((get_transaction_counts_by_fingerprint store
                ((parsed.map (fun t => ensure_fingerprint { t with account_id := aid })).filterMap
                  (fun t => hmLookup t.external_ids fpKey))).filter
                  (fun c => 0 < c.2)).map (fun c => c.1)).contains fp
            | none => true)
        = (importPrepared aid parsed).filter (fun t =>
            store.transactions.countP (fun r => hmLookup r.external_ids fpKey
              = hmLookup t.external_ids fpKey) = 0) := by
        rw [importPrepared]
        apply List.filter_congr
        intro t ht
        obtain ⟨t0, ht0, rfl⟩ := List.mem_map.mp ht
        have hempty : ({ t0 with account_id := aid } : Txn).external_ids = [] := hcsv t0 ht0
        have hlook := ensure_fingerprint_of_empty _ hempty
        rw [hlook]
        have hfpmem : txnFingerprint { t0 with account_id := aid }
            ∈ (parsed.map (fun t => ensure_fingerprint { t with account_id := aid })).filterMap
              (fun t => hmLookup t.external_ids fpKey) :=
          List.mem_filterMap.mpr ⟨_, ht, hlook⟩
        have hiff := counts_contains_iff store _ _ hfpmem
        by_cases hpos : 0 < store.transactions.countP
            (fun r => hmLookup r.external_ids fpKey
              = some (txnFingerprint { t0 with account_id := aid }))
        · simp only [hiff.mpr hpos]
          rw [decide_eq_false (Nat.pos_iff_ne_zero.mp hpos)]
          decide
        · have hfalse : (((get_transaction_counts_by_fingerprint store
              ((parsed.map (fun t => ensure_fingerprint { t with account_id := aid })).filterMap
                (fun t => hmLookup t.external_ids fpKey))).filter
                (fun c => 0 < c.2)).map (fun c => c.1)).contains
              (txnFingerprint { t0 with account_id := aid }) = false := by
            cases hc : (((get_transaction_counts_by_fingerprint store
                ((parsed.map (fun t => ensure_fingerprint { t with account_id := aid })).filterMap
                  (fun t => hmLookup t.external_ids fpKey))).filter
                  (fun c => 0 < c.2)).map (fun c => c.1)).contains
                (txnFingerprint { t0 with account_id := aid }) with
            | false => rfl
            | true => exact absurd (hiff.mp hc) hpos
          simp only [hfalse]
          rw [decide_eq_true (Nat.eq_zero_of_not_pos hpos)]
          decide
      dsimp only at h
      rw [hfilter] at h
      have hle : ((importPrepared aid parsed).filter (fun t =>
          store.transactions.countP (fun r => hmLookup r.external_ids fpKey
            = hmLookup t.external_ids fpKey) = 0)).length ≤ parsed.length := by
        calc ((importPrepared aid parsed).filter _).length
            ≤ (importPrepared aid parsed).length := List.length_filter_le _ _
          _ = parsed.length := by rw [importPrepared, List.length_map]
      obtain ⟨rfl, rfl⟩ : st' = _ ∧ stats = _ := by
        have := h
        injection this with h1
        injection h1 with h2 h3
        exact ⟨h2.symm, h3.symm⟩
      refine ⟨by simp [importPrepared], ?_, rfl, ?_⟩
      · simp only [importPrepared, List.length_map] at *
        omega
      · by_cases hF : ((importPrepared aid parsed).filter (fun t =>
            store.transactions.countP (fun r => hmLookup r.external_ids fpKey
              = hmLookup t.external_ids fpKey) = 0)).isEmpty = true
        · rw [if_neg (by simpa using hF), if_pos hF]
        · rw [if_pos (by simpa using hF), if_neg hF]
  · rfl

/-- Witness for C6's amended theorem: the general skip rule applied to the
one-account store and the two identical parsed rows (the post-import store
holds both rows, each stamped with the shared fingerprint). -/
theorem import_fingerprint_dedup_witness :
    (∀ t ∈ [(⟨"r1".toList, [], [], -500, some "Coffee".toList, 19999⟩ : Txn),
            ⟨"r2".toList, [], [], -500, some "Coffee".toList, 19999⟩], Txn.external_ids t = [])
    ∧ (⟨2, 2, 0⟩ : ImportStats).discovered
        = [(⟨"r1".toList, [], [], -500, some "Coffee".toList, 19999⟩ : Txn),
           ⟨"r2".toList, [], [], -500, some "Coffee".toList, 19999⟩].length :=
  ⟨by decide,
   (import_fingerprint_dedup.1
      ⟨[⟨"a1".toList, "A".toList, none, none, "USD".toList, [], none, none, none, none⟩],
       [], []⟩
      ("a1".toList)
      [⟨"r1".toList, [], [], -500, some "Coffee".toList, 19999⟩,
       ⟨"r2".toList, [], [], -500, some "Coffee".toList, 19999⟩]
      ⟨[⟨"a1".toList, "A".toList, none, none, "USD".toList, [], none, none, none, none⟩],
       [⟨"r1".toList, "a1".toList,
          [(fpKey, txnFingerprint ⟨"r1".toList, "a1".toList, [], -500,
              some "Coffee".toList, 19999⟩)], -500, some "Coffee".toList, 19999⟩,
        ⟨"r2".toList, "a1".toList,
          [(fpKey, txnFingerprint ⟨"r2".toList, "a1".toList, [], -500,
              some "Coffee".toList, 19999⟩)], -500, some "Coffee".toList, 19999⟩],
       []⟩
      ⟨2, 2, 0⟩
      (by decide) (by rfl)).1⟩

/-! ## C10: the sync reconciler decides purely by the `"simplefin"` id -/

/-- The insert/skip decision one candidate receives from the reconciler. -/
def insertDecision (hasKey : Str → Bool) (t : Txn) : Bool :=
  match hmLookup t.external_ids sfinKey with
  | some v => ¬ hasKey v
  | none => true

theorem reconcile_eq (hasKey : Str → Bool) (mapped : List Txn) :
    reconcile hasKey mapped =
      (mapped.filter (insertDecision hasKey),
       (mapped.filter (insertDecision hasKey)).length,
       (mapped.filter (fun t => ! insertDecision hasKey t)).length) := by
  induction mapped with
  | nil => rfl
  | cons t rest ih =>
    rw [reconcile, ih]
    cases hv : hmLookup t.external_ids sfinKey with
    | none => simp [insertDecision, hv, List.filter_cons]
    | some v =>
      cases hk : hasKey v with
      | true => simp [insertDecision, hv, hk, List.filter_cons]
      | false => simp [insertDecision, hv, hk, List.filter_cons]

theorem length_filter_add_length_filter_not (l : List Txn) (p : Txn → Bool) :
    (l.filter p).length + (l.filter (fun t => ! p t)).length = l.length := by
  induction l with
  | nil => rfl
  | cons t rest ih =>
    cases hp : p t <;> simp [List.filter_cons, hp] <;> omega

theorem hmLookup_some_mem (m : List (Str × Str)) (k v : Str) (h : hmLookup m k = some v) :
    (k, v) ∈ m := by
  induction m with
  | nil => simp [hmLookup] at h
  | cons e m ih =>
    rw [hmLookup] at h
    split at h
    · rename_i he
      have hv2 : e.2 = v := by injection h
      have he2 : e = (k, v) := Prod.ext he hv2
      subst he2
      exact List.mem_cons_self _ _
    · exact List.mem_cons_of_mem e (ih h)

theorem mem_existingKeys_iff (store : Store) (queries : List Str) (v : Str)
    (hv : v ∈ queries) :
    v ∈ existingKeys store queries ↔
      ∃ t ∈ store.transactions, hmLookup t.external_ids sfinKey = some v := by
  rw [existingKeys]
  constructor
  · intro h
    obtain ⟨t, ht, hl⟩ := List.mem_filterMap.mp h
    obtain ⟨q, _, ht'⟩ := List.mem_flatMap.mp ht
    exact ⟨t, (List.mem_filter.mp ht').1, hl⟩
  · rintro ⟨t, ht, hl⟩
    refine List.mem_filterMap.mpr ⟨t, ?_, hl⟩
    rw [get_transactions_by_external_ids]
    refine List.mem_flatMap.mpr ⟨v, hv, ?_⟩
    refine List.mem_filter.mpr ⟨ht, ?_⟩
    rw [extIdsLike]
    refine List.any_eq_true.mpr ⟨(sfinKey, v), hmLookup_some_mem _ _ _ hl, ?_⟩
    simp [containsSub_self]

/-- C10: the sync reconciler partitions candidates purely by the
`"simplefin"` source-native id.  A mapped transaction with no
`"simplefin"` entry is unconditionally counted new and queued for
insertion; for one carrying id `v`, it is skipped exactly when some stored
transaction carries exactly that `"simplefin"` id — the stored fingerprint
is never consulted. -/
theorem sync_skip_by_native_id (store : Store) (mapped : List Txn) (t : Txn)
    (ht : t ∈ mapped) :
    syncReconcile store mapped =
      (mapped.filter (insertDecision (fun v => (syncKeys store mapped).contains v)),
       (mapped.filter (insertDecision (fun v => (syncKeys store mapped).contains v))).length,
       (mapped.filter (fun u =>
         ! insertDecision (fun v => (syncKeys store mapped).contains v) u)).length)
    ∧ (hmLookup t.external_ids sfinKey = none →
        insertDecision (fun v => (syncKeys store mapped).contains v) t = true
        ∧ t ∈ (syncReconcile store mapped).1)
    ∧ (∀ v, hmLookup t.external_ids sfinKey = some v →
        (insertDecision (fun v => (syncKeys store mapped).contains v) t = false
          ↔ ∃ s ∈ store.transactions, hmLookup s.external_ids sfinKey = some v)) := by
  refine ⟨reconcile_eq _ mapped, ?_, ?_⟩
  · intro hn
    have hdec : insertDecision (fun v => (syncKeys store mapped).contains v) t = true := by
      rw [insertDecision, hn]
    refine ⟨hdec, ?_⟩
    rw [syncReconcile, reconcile_eq]
    exact List.mem_filter.mpr ⟨ht, hdec⟩
  · intro v hv
    have hq : v ∈ syncQueries mapped := List.mem_filterMap.mpr ⟨t, ht, hv⟩
    have hne : (syncQueries mapped).isEmpty = false := by
      cases hqe : (syncQueries mapped).isEmpty
      · rfl
      · rw [List.isEmpty_iff] at hqe
        rw [hqe] at hq
        simp at hq
    have hkeys : syncKeys store mapped = existingKeys store (syncQueries mapped) := by
      rw [syncKeys, hne]
      simp
    have hform : insertDecision (fun v => (syncKeys store mapped).contains v) t
        = ! (existingKeys store (syncQueries mapped)).contains v := by
      simp [insertDecision, hv, hkeys]
    rw [hform]
    constructor
    · intro hdec
      have hcont : (existingKeys store (syncQueries mapped)).contains v = true := by
        cases hc : (existingKeys store (syncQueries mapped)).contains v
        · rw [hc] at hdec; simp at hdec
        · rfl
      have hmem : v ∈ existingKeys store (syncQueries mapped) := by
        obtain ⟨x, hx, hbeq⟩ := List.contains_iff_exists_mem_beq.mp hcont
        exact (eq_of_beq hbeq) ▸ hx
      exact (mem_existingKeys_iff store _ v hq).mp hmem
    · intro hex
      have hmem : v ∈ existingKeys store (syncQueries mapped) :=
        (mem_existingKeys_iff store _ v hq).mpr hex
      have hcont : (existingKeys store (syncQueries mapped)).contains v = true :=
        List.contains_iff_exists_mem_beq.mpr ⟨v, hmem, by simp⟩
      rw [hcont]
      rfl

/-- Witness for C10: a candidate without a `"simplefin"` entry is counted
new against a store that actually holds a matching fingerprint, and a
candidate whose id is stored is skipped. -/
theorem sync_skip_by_native_id_witness :
    ((⟨"x1".toList, "a1".toList, [], -100, none, 19999⟩ : Txn)
        ∈ [(⟨"x1".toList, "a1".toList, [], -100, none, 19999⟩ : Txn)])
    ∧ hmLookup (⟨"x1".toList, "a1".toList, [], -100, none, 19999⟩ : Txn).external_ids sfinKey
        = none
    ∧ (⟨"x1".toList, "a1".toList, [], -100, none, 19999⟩ : Txn)
        ∈ (syncReconcile
            ⟨[], [⟨"s1".toList, "a1".toList, [(fpKey, "beef".toList)], -100, none, 19999⟩], []⟩
            [⟨"x1".toList, "a1".toList, [], -100, none, 19999⟩]).1 :=
  ⟨by decide, by decide,
   ((sync_skip_by_native_id
      ⟨[], [⟨"s1".toList, "a1".toList, [(fpKey, "beef".toList)], -100, none, 19999⟩], []⟩
      [⟨"x1".toList, "a1".toList, [], -100, none, 19999⟩]
      ⟨"x1".toList, "a1".toList, [], -100, none, 19999⟩
      (by decide)).2.1 (by decide)).2⟩

/-! ## C2: idempotent sync — supporting lemmas -/

theorem bulk_upsert_accounts_transactions (s : Store) (accts : List Acct) :
    (bulk_upsert_accounts s accts).transactions = s.transactions := rfl

theorem add_balance_snapshot_transactions (s : Store) (a : Str) (b d : Int) :
    (add_balance_snapshot s a b d).transactions = s.transactions := by
  rw [add_balance_snapshot]
  split
  · rfl
  · split <;> rfl

theorem syncAccountsPhase_transactions (dry : Bool) (snap : Int) (s : Store) (ua : List Acct) :
    (syncAccountsPhase dry snap s ua).transactions = s.transactions := by
  rw [syncAccountsPhase]
  split
  · rfl
  · have haux : ∀ (l : List Acct) (s0 : Store),
        (l.foldl (fun s a =>
          match a.balance with
          | some b => add_balance_snapshot s a.id b snap
          | none => s) s0).transactions = s0.transactions := by
      intro l
      induction l with
      | nil => intro s0; rfl
      | cons a rest ih =>
        intro s0
        rw [List.foldl_cons]
        cases hb : a.balance with
        | none => simp only [hb]; exact ih s0
        | some b => simp only [hb]; rw [ih]; exact add_balance_snapshot_transactions ..
    rw [haux]
    rfl

theorem remapTxn_sfin (q : PTxn) (i : Str) :
    hmLookup (remapTxn (ptxnToTxn q) i).external_ids sfinKey = some q.sfId := by
  have hne1 : ¬ (sfinKey = fpKey) := by decide
  have hne2 : ¬ (fpKey = sfinKey) := by decide
  simp [remapTxn, ptxnToTxn, ensure_fingerprint, hmErase, hmInsert, hmLookup, hne1, hne2]

theorem remapTxn_id (q : PTxn) (i : Str) : (remapTxn (ptxnToTxn q) i).id = q.id := by
  rw [remapTxn, ensure_fingerprint]
  split <;> rfl

/-- Whether a pulled transaction's source account id resolves against the
provider's own account list (resolution is independent of the store). -/
def resolvedB (p : ProviderData) (pid : Str) : Bool :=
  decide (pid ∈ p.accounts.filterMap (fun a => hmLookup a.external_ids sfinKey))

theorem lookupLast_isSome_iff (m : List (Str × Str)) (k : Str) :
    (lookupLast m k).isSome = true ↔ k ∈ m.map Prod.fst := by
  induction m with
  | nil => simp [lookupLast]
  | cons e m ih =>
    by_cases he : e.1 = k
    · constructor
      · intro _; exact List.mem_map.mpr ⟨e, List.mem_cons_self .., he⟩
      · intro _
        rw [lookupLast, List.filter_cons_of_pos (by simpa using he)]
        cases hl : (m.filter (fun x => x.1 = k)).getLast? with
        | none =>
          rw [List.getLast?_cons, hl]
          rfl
        | some x =>
          rw [List.getLast?_cons, hl]
          rfl
    · rw [lookupLast, List.filter_cons_of_neg (by simpa using he)]
      rw [lookupLast] at ih
      rw [ih, List.map_cons]
      constructor
      · exact fun h => List.mem_cons_of_mem _ h
      · intro h
        rcases List.mem_cons.mp h with h | h
        · exact absurd h.symm he
        · exact h

theorem mapProviderTxns_shape (m : List (Str × Str)) (pts : List (Str × PTxn)) :
    mapProviderTxns m pts
      = (pts.filter (fun pt => (lookupLast m pt.1).isSome)).map
          (fun pt => remapTxn (ptxnToTxn pt.2) ((lookupLast m pt.1).getD [])) := by
  induction pts with
  | nil => rfl
  | cons pt rest ih =>
    rw [mapProviderTxns, List.filterMap_cons]
    cases hl : lookupLast m pt.1 with
    | none =>
      rw [List.filter_cons_of_neg (by simp [hl])]
      exact ih
    | some i =>
      rw [List.filter_cons_of_pos (by simp [hl]), List.map_cons, hl]
      rw [mapProviderTxns] at ih
      rw [ih]
      rfl

theorem filterMap_pair_fst (l : List Acct) (F : Acct → Option Str) (G : Acct → Str) :
    (l.filterMap (fun a => (F a).map (fun v => (v, G a)))).map Prod.fst = l.filterMap F := by
  induction l with
  | nil => rfl
  | cons a rest ih =>
    cases hf : F a with
    | none => simp [List.filterMap_cons, hf, ih]
    | some v => simp [List.filterMap_cons, hf, ih]

theorem accountIdMap_fst (l : List Acct) :
    (accountIdMap l).map Prod.fst
      = l.filterMap (fun a => hmLookup a.external_ids sfinKey) := by
  rw [accountIdMap]
  exact filterMap_pair_fst l _ _

theorem updated_sfids (ex ds : List Acct) :
    (mapAccounts ex ds).1.filterMap (fun a => hmLookup a.external_ids sfinKey)
      = ds.filterMap (fun a => hmLookup a.external_ids sfinKey) := by
  rw [mapAccounts_fst, List.filterMap_map]
  have hfun : ((fun a : Acct => hmLookup a.external_ids sfinKey) ∘ (fun d : Acct =>
      match findMatch d ex with
      | some e => mergeAccount d e
      | none => d)) = fun a : Acct => hmLookup a.external_ids sfinKey := by
    funext d
    simp only [Function.comp_apply]
    cases findMatch d ex <;> rfl
  rw [hfun]

theorem accountIdMap_keys (ex ds : List Acct) :
    (accountIdMap (mapAccounts ex ds).1).map Prod.fst
      = ds.filterMap (fun a => hmLookup a.external_ids sfinKey) := by
  rw [accountIdMap_fst, updated_sfids]

theorem resolution_eq (ex : List Acct) (p : ProviderData) (pid : Str) :
    (lookupLast (accountIdMap (mapAccounts ex p.accounts).1) pid).isSome
      = resolvedB p pid := by
  have hiff := lookupLast_isSome_iff (accountIdMap (mapAccounts ex p.accounts).1) pid
  rw [accountIdMap_keys] at hiff
  rw [resolvedB]
  cases h : (lookupLast (accountIdMap (mapAccounts ex p.accounts).1) pid).isSome
  · have hn : ¬ pid ∈ p.accounts.filterMap (fun a => hmLookup a.external_ids sfinKey) := by
      intro hm
      rw [hiff.mpr hm] at h
      simp at h
    rw [decide_eq_false hn]
  · rw [decide_eq_true (hiff.mp h)]

theorem mem_upsertTxn (rows : List Txn) (u t : Txn) (ht : t ∈ upsertTxn rows u) :
    t ∈ rows ∨ t = u := by
  rw [upsertTxn] at ht
  split at ht
  · obtain ⟨r, hr, hru⟩ := List.mem_map.mp ht
    by_cases hid : r.id = u.id
    · rw [if_pos hid] at hru
      exact Or.inr hru.symm
    · rw [if_neg hid] at hru
      exact Or.inl (hru ▸ hr)
  · rcases List.mem_append.mp ht with h | h
    · exact Or.inl h
    · exact Or.inr (List.mem_singleton.mp h)

theorem upsertTxn_preserves (rows : List Txn) (u t : Txn) (ht : t ∈ rows)
    (hne : u.id ≠ t.id) : t ∈ upsertTxn rows u := by
  rw [upsertTxn]
  split
  · exact List.mem_map.mpr ⟨t, ht, by rw [if_neg (fun h => hne h.symm)]⟩
  · exact List.mem_append_left _ ht

theorem upsertTxn_self (rows : List Txn) (u : Txn) : u ∈ upsertTxn rows u := by
  rw [upsertTxn]
  split
  · rename_i hany
    obtain ⟨r, hr, hrid⟩ := List.any_eq_true.mp hany
    exact List.mem_map.mpr ⟨r, hr, by rw [if_pos (of_decide_eq_true hrid)]⟩
  · exact List.mem_append_right _ (List.mem_singleton_self u)

theorem foldl_upsert_preserves (ins : List Txn) : ∀ (rows : List Txn) (t : Txn),
    t ∈ rows → (∀ u ∈ ins, u.id ≠ t.id) → t ∈ ins.foldl upsertTxn rows := by
  induction ins with
  | nil => intro rows t ht _; exact ht
  | cons u ins ih =>
    intro rows t ht hne
    rw [List.foldl_cons]
    exact ih _ t (upsertTxn_preserves rows u t ht (hne u (List.mem_cons_self ..)))
      (fun w hw => hne w (List.mem_cons_of_mem _ hw))

theorem foldl_upsert_mem_inserted (ins : List Txn) : ∀ (rows : List Txn) (t : Txn),
    t ∈ ins → (ins.map Txn.id).Nodup → t ∈ ins.foldl upsertTxn rows := by
  induction ins with
  | nil => intro rows t ht _; simp at ht
  | cons u ins ih =>
    intro rows t ht hnd
    rw [List.map_cons, List.nodup_cons] at hnd
    rw [List.foldl_cons]
    rcases List.mem_cons.mp ht with rfl | ht
    · refine foldl_upsert_preserves ins _ t (upsertTxn_self rows t) ?_
      intro w hw heq
      exact hnd.1 (heq ▸ List.mem_map.mpr ⟨w, hw, rfl⟩)
    · exact ih _ t ht hnd.2

theorem foldl_upsert_subset (ins : List Txn) : ∀ (rows : List Txn) (t : Txn),
    t ∈ ins.foldl upsertTxn rows → t ∈ rows ∨ t ∈ ins := by
  induction ins with
  | nil => intro rows t ht; exact Or.inl ht
  | cons u ins ih =>
    intro rows t ht
    rw [List.foldl_cons] at ht
    rcases ih _ t ht with h | h
    · rcases mem_upsertTxn rows u t h with h | rfl
      · exact Or.inl h
      · exact Or.inr (List.mem_cons_self ..)
    · exact Or.inr (List.mem_cons_of_mem _ h)

/-- `syncIntegration` unfolded into its components (the resulting store). -/
theorem syncIntegration_fst (dry : Bool) (snap : Int) (store : Store) (p : ProviderData) :
    (syncIntegration dry snap store p).1 =
      (if ¬ dry ∧ ¬ (syncReconcile (syncAccountsPhase dry snap store
            (mapAccounts store.accounts p.accounts).1)
          (mapProviderTxns (accountIdMap (mapAccounts store.accounts p.accounts).1)
            p.transactions)).1.isEmpty
       then bulk_upsert_transactions
          (syncAccountsPhase dry snap store (mapAccounts store.accounts p.accounts).1)
          (syncReconcile (syncAccountsPhase dry snap store
              (mapAccounts store.accounts p.accounts).1)
            (mapProviderTxns (accountIdMap (mapAccounts store.accounts p.accounts).1)
              p.transactions)).1
       else syncAccountsPhase dry snap store (mapAccounts store.accounts p.accounts).1) := rfl

/-- `syncIntegration` unfolded into its components (the reported stats). -/
theorem syncIntegration_snd (dry : Bool) (snap : Int) (store : Store) (p : ProviderData) :
    (syncIntegration dry snap store p).2 =
      ⟨(mapProviderTxns (accountIdMap (mapAccounts store.accounts p.accounts).1)
          p.transactions).length,
       (syncReconcile (syncAccountsPhase dry snap store
            (mapAccounts store.accounts p.accounts).1)
          (mapProviderTxns (accountIdMap (mapAccounts store.accounts p.accounts).1)
            p.transactions)).2.1,
       (syncReconcile (syncAccountsPhase dry snap store
            (mapAccounts store.accounts p.accounts).1)
          (mapProviderTxns (accountIdMap (mapAccounts store.accounts p.accounts).1)
            p.transactions)).2.2⟩ := rfl

theorem mem_syncReconcile_insert (s : Store) (m : List (Str × Str)) (pts : List (Str × PTxn))
    (u : Txn) (hu : u ∈ (syncReconcile s (mapProviderTxns m pts)).1) :
    ∃ pt ∈ pts, u.id = pt.2.id := by
  rw [syncReconcile, reconcile_eq] at hu
  have hm : u ∈ mapProviderTxns m pts := (List.mem_filter.mp hu).1
  rw [mapProviderTxns_shape] at hm
  obtain ⟨pt, hpt, rfl⟩ := List.mem_map.mp hm
  exact ⟨pt, (List.mem_filter.mp hpt).1, remapTxn_id ..⟩

/-- A transaction of the evolved store is either an original one or carries
the internal id of one of the provider's pulled transactions. -/
theorem syncIntegration_txn_mem (dry : Bool) (snap : Int) (store : Store) (p : ProviderData)
    (t : Txn) (ht : t ∈ (syncIntegration dry snap store p).1.transactions) :
    t ∈ store.transactions ∨ ∃ pt ∈ p.transactions, t.id = pt.2.id := by
  rw [syncIntegration_fst] at ht
  split at ht
  · rw [bulk_upsert_transactions] at ht
    rcases foldl_upsert_subset _ _ _ ht with h | h
    · rw [syncAccountsPhase_transactions] at h
      exact Or.inl h
    · exact Or.inr (mem_syncReconcile_insert _ _ _ t h)
  · rw [syncAccountsPhase_transactions] at ht
    exact Or.inl ht

/-- An original transaction survives a sync iteration whenever none of the
provider's (freshly generated) internal ids collides with its id. -/
theorem syncIntegration_preserves_txn (dry : Bool) (snap : Int) (store : Store)
    (p : ProviderData) (t : Txn) (ht : t ∈ store.transactions)
    (hfr : ∀ pt ∈ p.transactions, pt.2.id ≠ t.id) :
    t ∈ (syncIntegration dry snap store p).1.transactions := by
  rw [syncIntegration_fst]
  split
  · rw [bulk_upsert_transactions]
    refine foldl_upsert_preserves _ _ t ?_ ?_
    · rw [syncAccountsPhase_transactions]; exact ht
    · intro u hu
      obtain ⟨pt, hpt, hid⟩ := mem_syncReconcile_insert _ _ _ u hu
      exact hid ▸ hfr pt hpt
  · rw [syncAccountsPhase_transactions]; exact ht

/-- Some stored transaction carries the given `"simplefin"` id. -/
def sfPresent (txs : List Txn) (v : Str) : Prop :=
  ∃ t ∈ txs, hmLookup t.external_ids sfinKey = some v

/-- Every resolved provider transaction's source-native id is known to the
store. -/
def syncGood (S : Store) (p : ProviderData) : Prop :=
  ∀ pt ∈ p.transactions, resolvedB p pt.1 = true → sfPresent S.transactions pt.2.sfId

theorem mapped_ids_nodup (m : List (Str × Str)) (pts : List (Str × PTxn))
    (hnd : (pts.map (fun pt => pt.2.id)).Nodup) :
    ((mapProviderTxns m pts).map Txn.id).Nodup := by
  rw [mapProviderTxns_shape, List.map_map]
  have hfun : (Txn.id ∘ fun pt : Str × PTxn =>
      remapTxn (ptxnToTxn pt.2) ((lookupLast m pt.1).getD []))
      = fun pt : Str × PTxn => pt.2.id := funext fun pt => remapTxn_id ..
  rw [hfun]
  exact List.Nodup.sublist ((List.filter_sublist _).map _) hnd

/-- After a live sync iteration, every resolved pulled transaction's
source-native id is present in the store. -/
theorem syncIntegration_establishes (snap : Int) (store : Store) (p : ProviderData)
    (hnd : (p.transactions.map (fun pt => pt.2.id)).Nodup)
    (hfr : ∀ pt ∈ p.transactions, ∀ t ∈ store.transactions, pt.2.id ≠ t.id)
    (pt : Str × PTxn) (hpt : pt ∈ p.transactions) (hres : resolvedB p pt.1 = true) :
    sfPresent (syncIntegration false snap store p).1.transactions pt.2.sfId := by
  have hsome : (lookupLast (accountIdMap (mapAccounts store.accounts p.accounts).1)
      pt.1).isSome = true := by
    rw [resolution_eq]; exact hres
  have htmem : remapTxn (ptxnToTxn pt.2)
      ((lookupLast (accountIdMap (mapAccounts store.accounts p.accounts).1) pt.1).getD [])
      ∈ mapProviderTxns (accountIdMap (mapAccounts store.accounts p.accounts).1)
        p.transactions := by
    rw [mapProviderTxns_shape]
    exact List.mem_map.mpr ⟨pt, List.mem_filter.mpr ⟨hpt, by simpa using hsome⟩, rfl⟩
  have hsfin : hmLookup (remapTxn (ptxnToTxn pt.2)
      ((lookupLast (accountIdMap (mapAccounts store.accounts p.accounts).1) pt.1).getD
        [])).external_ids sfinKey = some pt.2.sfId := remapTxn_sfin ..
  cases hdec : insertDecision (fun v =>
      (syncKeys (syncAccountsPhase false snap store (mapAccounts store.accounts p.accounts).1)
        (mapProviderTxns (accountIdMap (mapAccounts store.accounts p.accounts).1)
          p.transactions)).contains v)
      (remapTxn (ptxnToTxn pt.2)
        ((lookupLast (accountIdMap (mapAccounts store.accounts p.accounts).1) pt.1).getD
          [])) with
  | true =>
    have hins : remapTxn (ptxnToTxn pt.2)
        ((lookupLast (accountIdMap (mapAccounts store.accounts p.accounts).1) pt.1).getD [])
        ∈ (syncReconcile
            (syncAccountsPhase false snap store (mapAccounts store.accounts p.accounts).1)
            (mapProviderTxns (accountIdMap (mapAccounts store.accounts p.accounts).1)
              p.transactions)).1 := by
      rw [syncReconcile, reconcile_eq]
      exact List.mem_filter.mpr ⟨htmem, hdec⟩
    have hne : ((syncReconcile
        (syncAccountsPhase false snap store (mapAccounts store.accounts p.accounts).1)
        (mapProviderTxns (accountIdMap (mapAccounts store.accounts p.accounts).1)
          p.transactions)).1).isEmpty = false := by
      cases hie : ((syncReconcile
          (syncAccountsPhase false snap store (mapAccounts store.accounts p.accounts).1)
          (mapProviderTxns (accountIdMap (mapAccounts store.accounts p.accounts).1)
            p.transactions)).1).isEmpty
      · rfl
      · rw [List.isEmpty_iff] at hie
        rw [hie] at hins
        simp at hins
    refine ⟨remapTxn (ptxnToTxn pt.2)
      ((lookupLast (accountIdMap (mapAccounts store.accounts p.accounts).1) pt.1).getD []),
      ?_, hsfin⟩
    rw [syncIntegration_fst]
    rw [if_pos ⟨by simp, by simp [hne]⟩]
    rw [bulk_upsert_transactions]
    refine foldl_upsert_mem_inserted _ _ _ hins ?_
    have hsub : ((syncReconcile
        (syncAccountsPhase false snap store (mapAccounts store.accounts p.accounts).1)
        (mapProviderTxns (accountIdMap (mapAccounts store.accounts p.accounts).1)
          p.transactions)).1.map Txn.id).Sublist
        ((mapProviderTxns (accountIdMap (mapAccounts store.accounts p.accounts).1)
          p.transactions).map Txn.id) := by
      rw [syncReconcile, reconcile_eq]
      exact (List.filter_sublist _).map _
    exact List.Nodup.sublist hsub (mapped_ids_nodup _ _ hnd)
  | false =>
    obtain ⟨s, hs, hsv⟩ := ((sync_skip_by_native_id
        (syncAccountsPhase false snap store (mapAccounts store.accounts p.accounts).1)
        (mapProviderTxns (accountIdMap (mapAccounts store.accounts p.accounts).1)
          p.transactions)
        (remapTxn (ptxnToTxn pt.2)
          ((lookupLast (accountIdMap (mapAccounts store.accounts p.accounts).1) pt.1).getD []))
        htmem).2.2 pt.2.sfId hsfin).mp hdec
    rw [syncAccountsPhase_transactions] at hs
    exact ⟨s, syncIntegration_preserves_txn false snap store p s hs
      (fun pt' hpt' => hfr pt' hpt' s hs), hsv⟩

/-- When every resolved pulled id is already known, a live sync iteration
reports `new = 0` and `skipped = discovered` and leaves the transaction
table untouched. -/
theorem syncIntegration_noNew (snap : Int) (store : Store) (p : ProviderData)
    (hgood : syncGood store p) :
    (syncIntegration false snap store p).2.new = 0
    ∧ (syncIntegration false snap store p).2.skipped
        = (syncIntegration false snap store p).2.discovered
    ∧ (syncIntegration false snap store p).1.transactions = store.transactions := by
  have hall : ∀ t ∈ mapProviderTxns (accountIdMap (mapAccounts store.accounts p.accounts).1)
      p.transactions,
      insertDecision (fun v =>
        (syncKeys (syncAccountsPhase false snap store (mapAccounts store.accounts p.accounts).1)
          (mapProviderTxns (accountIdMap (mapAccounts store.accounts p.accounts).1)
            p.transactions)).contains v) t = false := by
    intro t htm
    have htm' := htm
    rw [mapProviderTxns_shape] at htm'
    obtain ⟨pt, hptf, rfl⟩ := List.mem_map.mp htm'
    obtain ⟨hpt, hsome⟩ := List.mem_filter.mp hptf
    have hres : resolvedB p pt.1 = true := by
      rw [← resolution_eq store.accounts]
      simpa using hsome
    have hpres : sfPresent store.transactions pt.2.sfId := hgood pt hpt hres
    refine ((sync_skip_by_native_id _ _ _ htm).2.2 pt.2.sfId (remapTxn_sfin ..)).mpr ?_
    rw [syncAccountsPhase_transactions]
    exact hpres
  have hnil : (mapProviderTxns (accountIdMap (mapAccounts store.accounts p.accounts).1)
      p.transactions).filter (insertDecision (fun v =>
        (syncKeys (syncAccountsPhase false snap store (mapAccounts store.accounts p.accounts).1)
          (mapProviderTxns (accountIdMap (mapAccounts store.accounts p.accounts).1)
            p.transactions)).contains v)) = [] := by
    rw [List.filter_eq_nil_iff]
    intro t htm
    rw [hall t htm]
    simp
  have hallkeep : (mapProviderTxns (accountIdMap (mapAccounts store.accounts p.accounts).1)
      p.transactions).filter (fun u => ! insertDecision (fun v =>
        (syncKeys (syncAccountsPhase false snap store (mapAccounts store.accounts p.accounts).1)
          (mapProviderTxns (accountIdMap (mapAccounts store.accounts p.accounts).1)
            p.transactions)).contains v) u)
      = mapProviderTxns (accountIdMap (mapAccounts store.accounts p.accounts).1)
          p.transactions := by
    rw [List.filter_eq_self]
    intro t htm
    rw [hall t htm]
    rfl
  refine ⟨?_, ?_, ?_⟩
  · rw [syncIntegration_snd]
    show (syncReconcile _ _).2.1 = 0
    rw [syncReconcile, reconcile_eq]
    show (List.filter _ _).length = 0
    rw [hnil]
    rfl
  · rw [syncIntegration_snd]
    show (syncReconcile _ _).2.2 = _
    rw [syncReconcile, reconcile_eq]
    show (List.filter _ _).length = _
    rw [hallkeep]
  · rw [syncIntegration_fst]
    rw [if_neg ?_, syncAccountsPhase_transactions]
    rintro ⟨-, h2⟩
    apply h2
    rw [syncReconcile, reconcile_eq]
    show (List.filter _ _).isEmpty = true
    rw [hnil]
    rfl

/-! ### The full multi-source sync loop -/

/-- All internal transaction ids any configured provider generates. -/
def allIds (ps : List ProviderData) : List Str :=
  ps.flatMap (fun p => p.transactions.map (fun pt => pt.2.id))

/-- The number of pulled transactions whose source account resolves — each
source's `discovered` count, independent of the store. -/
def countResolved (p : ProviderData) : Nat :=
  (p.transactions.filter (fun pt => resolvedB p pt.1)).length

theorem syncIntegration_discovered (dry : Bool) (snap : Int) (s : Store) (p : ProviderData) :
    (syncIntegration dry snap s p).2.discovered = countResolved p := by
  rw [syncIntegration_snd]
  show (mapProviderTxns _ _).length = _
  rw [mapProviderTxns_shape, List.length_map, countResolved]
  congr 1
  apply List.filter_congr
  intro pt _
  rw [resolution_eq]

theorem sync_all_store_proj (dry : Bool) (snap : Int) (ps : List ProviderData) :
    ∀ (st : Store) (acc : List TxStats),
      (ps.foldl (fun acc p =>
        let r := syncIntegration dry snap acc.1 p
        (r.1, acc.2 ++ [r.2])) (st, acc)).1
      = ps.foldl (fun s p => (syncIntegration dry snap s p).1) st := by
  induction ps with
  | nil => intro st acc; rfl
  | cons p rest ih => intro st acc; rw [List.foldl_cons, List.foldl_cons]; exact ih _ _

theorem sync_all_stats_proj (dry : Bool) (snap : Int) (ps : List ProviderData) :
    ∀ (st : Store) (acc : List TxStats),
      ((ps.foldl (fun acc p =>
        let r := syncIntegration dry snap acc.1 p
        (r.1, acc.2 ++ [r.2])) (st, acc)).2).map (fun stat => stat.discovered)
      = acc.map (fun stat => stat.discovered) ++ ps.map countResolved := by
  induction ps with
  | nil => intro st acc; simp
  | cons p rest ih =>
    intro st acc
    rw [List.foldl_cons, List.map_cons]
    rw [ih]
    simp [syncIntegration_discovered]

theorem foldl_sync_preserves_txn (snap : Int) (qs : List ProviderData) :
    ∀ (S : Store) (s : Txn), s ∈ S.transactions → (∀ i ∈ allIds qs, i ≠ s.id) →
      s ∈ (qs.foldl (fun st q => (syncIntegration false snap st q).1) S).transactions := by
  induction qs with
  | nil => intro S s hs _; exact hs
  | cons q rest ih =>
    intro S s hs hfr
    rw [List.foldl_cons]
    refine ih _ s ?_ ?_
    · refine syncIntegration_preserves_txn false snap S q s hs ?_
      intro pt hpt
      refine hfr pt.2.id ?_
      rw [allIds, List.flatMap_cons]
      exact List.mem_append_left _ (List.mem_map.mpr ⟨pt, hpt, rfl⟩)
    · intro i hi
      refine hfr i ?_
      rw [allIds, List.flatMap_cons]
      exact List.mem_append_right _ hi

theorem run1_good (snap : Int) (ps : List ProviderData) :
    ∀ (st : Store),
      (allIds ps).Nodup →
      (∀ i ∈ allIds ps, ∀ t ∈ st.transactions, i ≠ t.id) →
      ∀ p ∈ ps, syncGood
        (ps.foldl (fun s p => (syncIntegration false snap s p).1) st) p := by
  induction ps with
  | nil => intro st _ _ p hp; simp at hp
  | cons p rest ih =>
    intro st hnd hfr p' hp'
    rw [allIds, List.flatMap_cons] at hnd hfr
    obtain ⟨hnd1, hnd2, hdisj⟩ := List.nodup_append.mp hnd
    have hfr1 : ∀ pt ∈ p.transactions, ∀ t ∈ st.transactions, pt.2.id ≠ t.id :=
      fun pt hpt t htx =>
        hfr pt.2.id (List.mem_append_left _ (List.mem_map.mpr ⟨pt, hpt, rfl⟩)) t htx
    have hfr2 : ∀ i ∈ allIds rest,
        ∀ t ∈ (syncIntegration false snap st p).1.transactions, i ≠ t.id := by
      intro i hi t htx
      rcases syncIntegration_txn_mem false snap st p t htx with h | ⟨pt, hpt, hid⟩
      · exact hfr i (List.mem_append_right _ hi) t h
      · rw [hid]
        intro hcontra
        exact hdisj (List.mem_map.mpr ⟨pt, hpt, rfl⟩) (hcontra ▸ hi)
    rw [List.foldl_cons]
    rcases List.mem_cons.mp hp' with rfl | hp'
    · intro pt hpt hres
      obtain ⟨s, hsmem, hsv⟩ :=
        syncIntegration_establishes snap st p' hnd1 hfr1 pt hpt hres
      have hfrs : ∀ i ∈ allIds rest, i ≠ s.id := by
        intro i hi
        rcases syncIntegration_txn_mem false snap st p' s hsmem with h | ⟨pt', hpt', hid⟩
        · exact hfr i (List.mem_append_right _ hi) s h
        · rw [hid]
          intro hcontra
          exact hdisj (List.mem_map.mpr ⟨pt', hpt', rfl⟩) (hcontra ▸ hi)
      exact ⟨s, foldl_sync_preserves_txn snap rest _ s hsmem hfrs, hsv⟩
    · exact ih _ hnd2 hfr2 p' hp'

theorem run2_noNew (snap : Int) (ps : List ProviderData) :
    ∀ (st : Store) (acc : List TxStats),
      (∀ p ∈ ps, syncGood st p) →
      (∀ stat ∈ acc, stat.new = 0 ∧ stat.skipped = stat.discovered) →
      ∀ stat ∈ (ps.foldl (fun acc p =>
          let r := syncIntegration false snap acc.1 p
          (r.1, acc.2 ++ [r.2])) (st, acc)).2,
        stat.new = 0 ∧ stat.skipped = stat.discovered := by
  induction ps with
  | nil => intro st acc _ hacc stat hstat; exact hacc stat hstat
  | cons p rest ih =>
    intro st acc hgood hacc stat hstat
    rw [List.foldl_cons] at hstat
    obtain ⟨hnew, hskip, htx⟩ := syncIntegration_noNew snap st p (hgood p (List.mem_cons_self ..))
    refine ih _ _ ?_ ?_ stat hstat
    · intro q hq pt hpt hres
      obtain ⟨s, hsmem, hsv⟩ := hgood q (List.mem_cons_of_mem _ hq) pt hpt hres
      exact ⟨s, by rw [htx]; exact hsmem, hsv⟩
    · intro s hs
      rcases List.mem_append.mp hs with h | h
      · exact hacc s h
      · obtain rfl := List.mem_singleton.mp h
        exact ⟨hnew, hskip⟩

/-- C2: idempotent sync.  With every provider-generated internal
transaction id fresh (pairwise distinct and distinct from the ids already
stored — what `Uuid::new_v4` provides), running the full multi-source sync
twice in a row from any starting store yields, for every source on the
second run, `new = 0` and `skipped = discovered`; both runs discover the
same per-source counts (every transaction discovered on the second run is
matched by its `"simplefin"` source-native id against the store and
skipped). -/
theorem sync_idempotent (ps : List ProviderData) (store : Store) (d1 d2 : Int)
    (hnd : (allIds ps).Nodup)
    (hfr : ∀ i ∈ allIds ps, ∀ t ∈ store.transactions, i ≠ t.id) :
    (∀ stat ∈ (sync_all_integrations false d2
        (sync_all_integrations false d1 store ps).1 ps).2,
      stat.new = 0 ∧ stat.skipped = stat.discovered)
    ∧ (sync_all_integrations false d2
        (sync_all_integrations false d1 store ps).1 ps).2.map (fun stat => stat.discovered)
      = (sync_all_integrations false d1 store ps).2.map (fun stat => stat.discovered) := by
  constructor
  · intro stat hstat
    rw [sync_all_integrations] at hstat
    refine run2_noNew d2 ps _ [] ?_ (by simp) stat hstat
    intro p hp
    rw [sync_all_integrations, sync_all_store_proj]
    exact run1_good d1 ps store hnd hfr p hp
  · rw [sync_all_integrations, sync_all_integrations, sync_all_stats_proj,
      sync_all_stats_proj]

/-- A concrete provider dataset: one account (source id `accA`) and one
transaction (source id `t100`). -/
def c2Prov : ProviderData :=
  ⟨[⟨"pa-uuid".toList, "Demo".toList, none, none, "USD".toList,
     [(sfinKey, "accA".toList)], some 10000, none, none, none⟩],
   [("accA".toList, ⟨"ptx-uuid".toList, "t100".toList, -1234,
     some "Coffee Shop".toList, 19999⟩)]⟩

/-- Witness for C2: syncing the one-transaction provider twice against an
empty store leaves the second run's only stats row at
discovered 1 / new 0 / skipped 1. -/
theorem sync_idempotent_witness :
    (allIds [c2Prov]).Nodup
    ∧ ((⟨1, 0, 1⟩ : TxStats).new = 0
        ∧ (⟨1, 0, 1⟩ : TxStats).skipped = (⟨1, 0, 1⟩ : TxStats).discovered) :=
  ⟨by decide,
   (sync_idempotent [c2Prov] ⟨[], [], []⟩ 100 200 (by decide) (by decide)).1
     ⟨1, 0, 1⟩ (by decide)⟩

/-! ## C9: dry-run behaviour -/

theorem syncIntegration_dry_store (snap : Int) (st : Store) (p : ProviderData) :
    (syncIntegration true snap st p).1 = st := by
  rw [syncIntegration_fst]
  rw [if_neg (fun h => h.1 (by simp))]
  rfl

theorem sync_all_dry_store (snap : Int) (ps : List ProviderData) :
    ∀ (st : Store) (acc : List TxStats),
      (ps.foldl (fun acc p =>
        let r := syncIntegration true snap acc.1 p
        (r.1, acc.2 ++ [r.2])) (st, acc)).1 = st := by
  induction ps with
  | nil => intro st acc; rfl
  | cons p rest ih =>
    intro st acc
    rw [List.foldl_cons]
    have hstep : (syncIntegration true snap st p).1 = st := syncIntegration_dry_store ..
    show (rest.foldl (fun acc p =>
        let r := syncIntegration true snap acc.1 p
        (r.1, acc.2 ++ [r.2]))
      ((syncIntegration true snap st p).1, acc ++ [(syncIntegration true snap st p).2])).1 = st
    rw [hstep]
    exact ih st _

theorem backfillDays_dry_store (txs : List Txn) (cur : Int) (accId : Str) :
    ∀ (dates : List Int) (st : Store),
      (backfillDays txs cur accId true st dates).1 = st := by
  intro dates
  induction dates with
  | nil => intro st; rfl
  | cons d rest ih =>
    intro st
    rw [backfillDays]
    rw [if_neg (fun h => h.2 rfl)]
    exact ih st

theorem backfill_dry_store (store : Store) (ids : Option (List Str)) (days : Int)
    (end_date : Int) (out : BackfillOut)
    (h : backfill_balances store ids days true end_date = some out) :
    out.store = store := by
  rw [backfill_balances] at h
  split at h
  · exact absurd h (by simp)
  · have haux : ∀ (accounts : List Acct) (tr : List BEntry),
        ((accounts.foldl (fun acc a =>
          let txs := acc.store.transactions.filter (fun t => t.account_id = a.id)
          let current := a.balance.getD 0
          let r := backfillDays txs current a.id true acc.store (backfillDates end_date days)
          (⟨r.1, acc.trace ++ r.2⟩ : BackfillOut)) ⟨store, tr⟩).store) = store := by
      intro accounts
      induction accounts with
      | nil => intro tr; rfl
      | cons a rest ih =>
        intro tr
        rw [List.foldl_cons]
        have hstep := backfillDays_dry_store
          (store.transactions.filter (fun t => t.account_id = a.id))
          (a.balance.getD 0) a.id (backfillDates end_date days) store
        show ((rest.foldl (fun acc a =>
            let txs := acc.store.transactions.filter (fun t => t.account_id = a.id)
            let current := a.balance.getD 0
            let r := backfillDays txs current a.id true acc.store (backfillDates end_date days)
            (⟨r.1, acc.trace ++ r.2⟩ : BackfillOut))
          ⟨(backfillDays (store.transactions.filter (fun t => t.account_id = a.id))
              (a.balance.getD 0) a.id true store (backfillDates end_date days)).1,
            tr ++ (backfillDays (store.transactions.filter (fun t => t.account_id = a.id))
              (a.balance.getD 0) a.id true store (backfillDates end_date days)).2⟩).store)
          = store
        rw [hstep]
        exact ih _
    have hout : out = (backfillAccounts store ids).foldl (fun acc a =>
        let txs := acc.store.transactions.filter (fun t => t.account_id = a.id)
        let current := a.balance.getD 0
        let r := backfillDays txs current a.id true acc.store (backfillDates end_date days)
        (⟨r.1, acc.trace ++ r.2⟩ : BackfillOut)) ⟨store, []⟩ := by
      injection h.symm
    rw [hout]
    exact haux _ []

theorem syncKeys_congr (s1 s2 : Store) (h : s1.transactions = s2.transactions)
    (mapped : List Txn) : syncKeys s1 mapped = syncKeys s2 mapped := by
  rw [syncKeys, syncKeys]
  congr 1
  rw [existingKeys, existingKeys, get_transactions_by_external_ids,
    get_transactions_by_external_ids, h]

theorem syncReconcile_congr (s1 s2 : Store) (h : s1.transactions = s2.transactions)
    (mapped : List Txn) : syncReconcile s1 mapped = syncReconcile s2 mapped := by
  rw [syncReconcile, syncReconcile, syncKeys_congr s1 s2 h]

/-- Dry-run and live-run report identical stats for one integration run
from the same store: the account phase touches only accounts and
snapshots, and the reconcile counts read only the transaction table. -/
theorem syncIntegration_stats_dry (snap : Int) (st : Store) (p : ProviderData) :
    (syncIntegration true snap st p).2 = (syncIntegration false snap st p).2 := by
  rw [syncIntegration_snd, syncIntegration_snd]
  have h : (syncAccountsPhase true snap st (mapAccounts st.accounts p.accounts).1).transactions
      = (syncAccountsPhase false snap st (mapAccounts st.accounts p.accounts).1).transactions := by
    rw [syncAccountsPhase_transactions, syncAccountsPhase_transactions]
  rw [syncReconcile_congr _ _ h]

theorem sync_single_dry_eq (snap : Int) (st : Store) (p : ProviderData) :
    (sync_all_integrations true snap st [p]).2
      = (sync_all_integrations false snap st [p]).2 := by
  simp only [sync_all_integrations, List.foldl_cons, List.foldl_nil]
  rw [syncIntegration_stats_dry]

theorem backfillDays_snapshots_extra (txs : List Txn) (cur : Int) (accId : Str) :
    ∀ (dates : List Int) (st : Store),
      ∃ extra, (backfillDays txs cur accId false st dates).1.snapshots
          = st.snapshots ++ extra
        ∧ ∀ e ∈ extra, e.account_id = accId := by
  intro dates
  induction dates with
  | nil => intro st; exact ⟨[], by simp [backfillDays], by simp⟩
  | cons d rest ih =>
    intro st
    rw [backfillDays]
    split
    · obtain ⟨extra, hsn, hacc⟩ := ih { st with snapshots :=
        st.snapshots ++ [⟨accId, projectedBalance txs cur d, d⟩] }
      refine ⟨⟨accId, projectedBalance txs cur d, d⟩ :: extra, ?_, ?_⟩
      · rw [hsn]
        simp
      · intro e he
        rcases List.mem_cons.mp he with rfl | he
        · rfl
        · exact hacc e he
    · exact ih st

theorem mem_descDates_le : ∀ (n : Nat) (d x : Int), x ∈ descDates d n → x ≤ d := by
  intro n
  induction n with
  | zero => intro d x hx; simp [descDates] at hx
  | succ n ih =>
    intro d x hx
    rw [descDates] at hx
    rcases List.mem_cons.mp hx with rfl | hx
    · exact le_refl _
    · have := ih (d - 1) x hx
      omega

theorem descDates_pairwise : ∀ (n : Nat) (d : Int), (descDates d n).Pairwise (· > ·) := by
  intro n
  induction n with
  | zero => intro d; exact List.Pairwise.nil
  | succ n ih =>
    intro d
    rw [descDates]
    refine List.Pairwise.cons ?_ (ih (d - 1))
    intro x hx
    have := mem_descDates_le n (d - 1) x hx
    omega

theorem backfillDays_trace_dry_live (txs : List Txn) (cur : Int) (accId : Str) :
    ∀ (dates : List Int), dates.Pairwise (· > ·) →
      ∀ (st_d st_l : Store),
        (∀ d ∈ dates,
          st_l.snapshots.filter (fun s => s.account_id = accId ∧ s.date = d)
            = st_d.snapshots.filter (fun s => s.account_id = accId ∧ s.date = d)) →
        (backfillDays txs cur accId true st_d dates).2
          = (backfillDays txs cur accId false st_l dates).2 := by
  intro dates
  induction dates with
  | nil => intro _ st_d st_l _; rfl
  | cons d rest ih =>
    intro hpw st_d st_l hagree
    rw [List.pairwise_cons] at hpw
    have hex := hagree d (List.mem_cons_self ..)
    rw [backfillDays, backfillDays]
    dsimp only
    rw [if_neg (fun h => h.2 rfl)]
    rw [hex]
    rw [List.cons.injEq]
    refine ⟨rfl, ?_⟩
    split
    · refine ih hpw.2 st_d _ ?_
      intro d' hd'
      show (st_l.snapshots ++ ([⟨accId, projectedBalance txs cur d, d⟩] : List Snap)).filter
          (fun s : Snap => s.account_id = accId ∧ s.date = d') = _
      rw [List.filter_append]
      have hne : d ≠ d' := by
        have := hpw.1 d' hd'
        omega
      rw [show ([⟨accId, projectedBalance txs cur d, d⟩] : List Snap).filter
          (fun s => s.account_id = accId ∧ s.date = d') = [] from by simp [hne]]
      rw [List.append_nil]
      exact hagree d' (List.mem_cons_of_mem _ hd')
    · exact ih hpw.2 st_d st_l (fun d' hd' => hagree d' (List.mem_cons_of_mem _ hd'))

theorem backfill_fold_dry_live (dates : List Int) (hpw : dates.Pairwise (· > ·)) :
    ∀ (accounts : List Acct) (st_d st_l : Store) (tr : List BEntry),
      st_d.transactions = st_l.transactions →
      ((accounts.map (fun a => a.id)).Nodup) →
      (∀ a ∈ accounts, ∀ d,
        st_l.snapshots.filter (fun s => s.account_id = a.id ∧ s.date = d)
          = st_d.snapshots.filter (fun s => s.account_id = a.id ∧ s.date = d)) →
      (accounts.foldl (fun acc a =>
        let txs := acc.store.transactions.filter (fun t => t.account_id = a.id)
        let current := a.balance.getD 0
        let r := backfillDays txs current a.id true acc.store dates
        (⟨r.1, acc.trace ++ r.2⟩ : BackfillOut)) ⟨st_d, tr⟩).trace
      = (accounts.foldl (fun acc a =>
        let txs := acc.store.transactions.filter (fun t => t.account_id = a.id)
        let current := a.balance.getD 0
        let r := backfillDays txs current a.id false acc.store dates
        (⟨r.1, acc.trace ++ r.2⟩ : BackfillOut)) ⟨st_l, tr⟩).trace := by
  intro accounts
  induction accounts with
  | nil => intro st_d st_l tr _ _ _; rfl
  | cons a rest ih =>
    intro st_d st_l tr htx hnd hagree
    rw [List.map_cons, List.nodup_cons] at hnd
    rw [List.foldl_cons, List.foldl_cons]
    have htrace : (backfillDays (st_d.transactions.filter (fun t => t.account_id = a.id))
        (a.balance.getD 0) a.id true st_d dates).2
        = (backfillDays (st_l.transactions.filter (fun t => t.account_id = a.id))
          (a.balance.getD 0) a.id false st_l dates).2 := by
      rw [htx]
      exact backfillDays_trace_dry_live _ _ _ dates hpw st_d st_l
        (fun d _ => hagree a (List.mem_cons_self ..) d)
    have hstd : (backfillDays (st_d.transactions.filter (fun t => t.account_id = a.id))
        (a.balance.getD 0) a.id true st_d dates).1 = st_d :=
      backfillDays_dry_store ..
    obtain ⟨extra, hsn, hacc⟩ := backfillDays_snapshots_extra
      (st_l.transactions.filter (fun t => t.account_id = a.id))
      (a.balance.getD 0) a.id dates st_l
    show (rest.foldl _ (⟨(backfillDays (st_d.transactions.filter
        (fun t => t.account_id = a.id)) (a.balance.getD 0) a.id true st_d dates).1,
        tr ++ (backfillDays (st_d.transactions.filter (fun t => t.account_id = a.id))
          (a.balance.getD 0) a.id true st_d dates).2⟩ : BackfillOut)).trace
      = (rest.foldl _ (⟨(backfillDays (st_l.transactions.filter
          (fun t => t.account_id = a.id)) (a.balance.getD 0) a.id false st_l dates).1,
          tr ++ (backfillDays (st_l.transactions.filter (fun t => t.account_id = a.id))
            (a.balance.getD 0) a.id false st_l dates).2⟩ : BackfillOut)).trace
    rw [htrace, hstd]
    refine ih st_d _ _ ?_ hnd.2 ?_
    · rw [backfillDays_transactions]
      exact htx
    · intro a' ha' d
      show (backfillDays _ _ a.id false st_l dates).1.snapshots.filter _ = _
      rw [hsn, List.filter_append]
      have hextra : extra.filter (fun s => s.account_id = a'.id ∧ s.date = d) = [] := by
        rw [List.filter_eq_nil_iff]
        intro e he
        have := hacc e he
        intro hc
        rw [decide_eq_true_eq] at hc
        exact hnd.1 (this ▸ hc.1 ▸ List.mem_map.mpr ⟨a', ha', rfl⟩)
      rw [hextra, List.append_nil]
      exact hagree a' (List.mem_cons_of_mem _ ha') d

theorem backfill_dry_live_counts (store : Store) (ids : Option (List Str)) (days : Int)
    (end_date : Int) (od ol : BackfillOut)
    (hnd : ((backfillAccounts store ids).map (fun a => a.id)).Nodup)
    (hd : backfill_balances store ids days true end_date = some od)
    (hl : backfill_balances store ids days false end_date = some ol) :
    od.trace = ol.trace
    ∧ backfillCreated od = backfillCreated ol
    ∧ backfillSkipped od = backfillSkipped ol := by
  rw [backfill_balances] at hd hl
  split at hd
  · exact absurd hd (by simp)
  · split at hl
    · exact absurd hl (by simp)
    · dsimp only at hd hl
      injection hd with hd
      injection hl with hl
      have htr : od.trace = ol.trace := by
        rw [← hd, ← hl]
        exact backfill_fold_dry_live (backfillDates end_date days)
          (by rw [backfillDates]; exact descDates_pairwise _ _)
          (backfillAccounts store ids) store store []
          rfl hnd (fun _ _ _ => rfl)
      exact ⟨htr, by rw [backfillCreated, backfillCreated, htr],
        by rw [backfillSkipped, backfillSkipped, htr]⟩

/-- A second configured integration whose provider reports a different
account but a transaction with the same source-native id `"t100"` as
`c2Prov`'s. -/
def c9ProvB : ProviderData :=
  ⟨[⟨"pb-uuid".toList, "Demo B".toList, none, none, "USD".toList,
     [(sfinKey, "accB".toList)], some 5000, none, none, none⟩],
   [("accB".toList, ⟨"ptx2-uuid".toList, "t100".toList, -500,
     some "Tea".toList, 19999⟩)]⟩

/-- Counterexample to C9: with two configured integrations whose providers
report transactions sharing the source-native id `"t100"`, a dry run from
the empty store reports new = 1 for both sources, while a live run from the
same store inserts the first source's transaction and therefore reports
skipped = 1 for the second source — the dry-run counts are not identical to
the live run's. -/
theorem dry_run_counterexample :
    (sync_all_integrations true 100 ⟨[], [], []⟩ [c2Prov, c9ProvB]).2
      = [⟨1, 1, 0⟩, ⟨1, 1, 0⟩]
    ∧ (sync_all_integrations false 100 ⟨[], [], []⟩ [c2Prov, c9ProvB]).2
      = [⟨1, 1, 0⟩, ⟨1, 0, 1⟩]
    ∧ (sync_all_integrations true 100 ⟨[], [], []⟩ [c2Prov, c9ProvB]).2
      ≠ (sync_all_integrations false 100 ⟨[], [], []⟩ [c2Prov, c9ProvB]).2 := by
  refine ⟨?_, ?_, ?_⟩ <;> decide

/-- C9 (amended): a dry run of sync or backfill mutates nothing (the sync
store is returned unchanged, and a dry backfill's resulting store is its
input store), and the reported counts match a live run from the same store
state per invocation: for a sync over a single integration the stats are
identical, and for a backfill (over accounts with distinct ids, as the
primary key guarantees) the trace and the created/skipped counts are
identical.  (Across several integrations in one sync run the counts can
diverge, because a live run's earlier inserts make later sources skip
shared source-native ids.) -/
theorem dry_run_equivalence :
    (∀ (snap : Int) (st : Store) (ps : List ProviderData),
        (sync_all_integrations true snap st ps).1 = st)
    ∧ (∀ (store : Store) (ids : Option (List Str)) (days end_date : Int)
        (out : BackfillOut),
        backfill_balances store ids days true end_date = some out →
        out.store = store)
    ∧ (∀ (snap : Int) (st : Store) (p : ProviderData),
        (sync_all_integrations true snap st [p]).2
          = (sync_all_integrations false snap st [p]).2)
    ∧ (∀ (store : Store) (ids : Option (List Str)) (days end_date : Int)
        (od ol : BackfillOut),
        ((backfillAccounts store ids).map (fun a => a.id)).Nodup →
        backfill_balances store ids days true end_date = some od →
        backfill_balances store ids days false end_date = some ol →
        od.trace = ol.trace
        ∧ backfillCreated od = backfillCreated ol
        ∧ backfillSkipped od = backfillSkipped ol) := by
  refine ⟨?_, ?_, ?_, ?_⟩
  · intro snap st ps
    rw [sync_all_integrations]
    exact sync_all_dry_store snap ps st []
  · intro store ids days end_date out h
    exact backfill_dry_store store ids days end_date out h
  · intro snap st p
    exact sync_single_dry_eq snap st p
  · intro store ids days end_date od ol hnd hd hl
    exact backfill_dry_live_counts store ids days end_date od ol hnd hd hl

/-- Witness for the amended C9: a 0-day backfill of the C5 store, run dry
and live, yields the same one-row trace. -/
theorem dry_run_equivalence_witness :
    ((backfillAccounts c5Store none).map (fun a => a.id)).Nodup
    ∧ (⟨c5Store, [⟨"a1".toList, 20000, 10000, true⟩]⟩ : BackfillOut).trace
      = (⟨⟨c5Store.accounts, c5Store.transactions, [⟨"a1".toList, 10000, 20000⟩]⟩,
          [⟨"a1".toList, 20000, 10000, true⟩]⟩ : BackfillOut).trace :=
  ⟨by decide,
   (dry_run_equivalence.2.2.2 c5Store none 0 20000
     ⟨c5Store, [⟨"a1".toList, 20000, 10000, true⟩]⟩
     ⟨⟨c5Store.accounts, c5Store.transactions, [⟨"a1".toList, 10000, 20000⟩]⟩,
      [⟨"a1".toList, 20000, 10000, true⟩]⟩
     (by decide) (by decide) (by decide)).1⟩

end Treeline
